import Mathlib

/-!
# Datadog integration bindings (`integrations.go` of `go-datadog-api`)

A shallow embedding of the integration bindings (PagerDuty, Slack, AWS, GCP) of the vendored
Datadog client, of the record types they send and receive, and of the parts of the Go standard
library (`encoding/json`, `net/url`) that decide what goes on the wire.

* A Go pointer `*T` is `Option T` (`none` is the nil pointer), a Go slice `[]T` is
  `Option (List T)` (`none` is the nil slice, `some []` the empty non-nil slice) and a Go map
  is an optional association list.
* The request executor `doJsonRequest` is not part of `integrations.go`; every binding takes it
  as a parameter. A binding runs in `Go`, which records the executor calls made so far and
  whether the run ended in a nil-dereference panic.
-/

namespace Datadog

/-! ## JSON values -/

/-- One piece of the text of a JSON string: a character, written as it is or escaped, or an
escape `\uXXXX` of a surrogate code point that is not part of a pair. -/
inductive Piece where
  | char (c : Char)
  | surrogate (code : Nat)
  deriving DecidableEq

namespace Piece

/-- The piece is a character. -/
def isChar : Piece → Bool
  | char _ => true
  | surrogate _ => false

/-- What Go's `unquote` reads the piece as: an unpaired surrogate escape is read as the
replacement character U+FFFD. -/
def unquote : Piece → Char
  | char c => c
  | surrogate _ => Char.ofNat 0xFFFD

end Piece

/-- A JSON document, as a value. Objects keep their members in writing order. Numbers are
kept as integers: no record type of the file has a numeric field, and a number is only ever
a value of the wrong kind. A string that is a sequence of Unicode characters is `str`; a
string whose text may hold unpaired surrogate escapes, which no Go string and no Lean
`String` can hold, is `rawStr` with the pieces of its text. The encoders only write `str`.
Member names are Unicode strings. -/
inductive JSON where
  | null
  | bool (b : Bool)
  | num (n : Int)
  | str (s : String)
  | rawStr (pieces : List Piece)
  | arr (items : List JSON)
  | obj (members : List (String × JSON))

namespace JSON

/-- First member of a member list stored under key `k`. -/
def lookup (k : String) : List (String × JSON) → Option JSON
  | [] => none
  | (k', v) :: rest => if k' = k then some v else lookup k rest

/-- Value stored under key `k` when the document is an object that has the key. -/
def get? (k : String) : JSON → Option JSON
  | obj members => lookup k members
  | _ => none

/-- The document is an object with a member named `k`. -/
def hasKey (k : String) (j : JSON) : Bool := (j.get? k).isSome

/-- The pieces of the text of a JSON string, `none` for a document that is not a string. -/
def pieces? : JSON → Option (List Piece)
  | str s => some (s.data.map Piece.char)
  | rawStr ps => some ps
  | _ => none

/-- The Go string `unquote` reads a JSON string as, `none` for a document that is not a
string. Each unpaired surrogate escape is read as U+FFFD. -/
def unquoted? : JSON → Option String
  | str s => some s
  | rawStr ps => some ⟨ps.map Piece.unquote⟩
  | _ => none

end JSON

/-! ## Go strings and their ordering -/

/-- Lexicographic comparison of two character sequences by code point. On valid UTF-8 this is
the byte-wise order Go uses to compare strings. -/
def lessChars : List Char → List Char → Bool
  | [], [] => false
  | [], _ :: _ => true
  | _ :: _, [] => false
  | a :: as, b :: bs =>
    if a.toNat < b.toNat then true
    else if b.toNat < a.toNat then false
    else lessChars as bs

/-- Go's `a < b` on strings. -/
def stringLess (a b : String) : Bool := lessChars a.data b.data

/-- Insert one keyed entry into a list that is sorted by key. -/
def insertByKey {α : Type} (e : String × α) : List (String × α) → List (String × α)
  | [] => [e]
  | x :: rest => if stringLess x.1 e.1 then x :: insertByKey e rest else e :: x :: rest

/-- Sort keyed entries by key, as `sort.Strings` does to the keys of a map before it is
written out. The keys of a Go map are distinct, so the order among equal keys does not
matter. -/
def sortByKey {α : Type} : List (String × α) → List (String × α)
  | [] => []
  | e :: rest => insertByKey e (sortByKey rest)

/-! ## `encoding/json`: encoding of struct fields -/

/-- The Go values held by the fields of the record types of `integrations.go`. Elements of a
slice are kept in encoded form: a slice is written as the array of its encoded elements. -/
inductive GoValue where
  /-- A field of type `string`. -/
  | string (s : String)
  /-- A field of type `*string`. -/
  | ptrString (p : Option String)
  /-- A field of type `*bool`. -/
  | ptrBool (p : Option Bool)
  /-- A field of type `*bool` whose tag carries the `string` option. -/
  | ptrBoolString (p : Option Bool)
  /-- A field of a slice type, `none` for the nil slice. -/
  | slice (items : Option (List JSON))
  /-- A field of type `map[string]bool`, `none` for the nil map. -/
  | mapStringBool (m : Option (List (String × Bool)))

namespace GoValue

/-- The field is unset: a nil pointer, nil slice or nil map. A `string` is never unset. -/
def isNil : GoValue → Bool
  | string _ => false
  | ptrString p => p.isNone
  | ptrBool p => p.isNone
  | ptrBoolString p => p.isNone
  | slice items => items.isNone
  | mapStringBool m => m.isNone

/-- Go's `isEmptyValue`: strings, slices and maps of length zero and nil pointers. -/
def isEmptyValue : GoValue → Bool
  | string s => s.length == 0
  | ptrString p => p.isNone
  | ptrBool p => p.isNone
  | ptrBoolString p => p.isNone
  | slice none => true
  | slice (some items) => items.length == 0
  | mapStringBool none => true
  | mapStringBool (some m) => m.length == 0

/-- JSON written for a field value. A nil pointer, slice or map is written `null`; the `string`
option writes a boolean inside a JSON string; a map is written with its keys sorted. -/
def encode : GoValue → JSON
  | string s => .str s
  | ptrString none => .null
  | ptrString (some s) => .str s
  | ptrBool none => .null
  | ptrBool (some b) => .bool b
  | ptrBoolString none => .null
  | ptrBoolString (some b) => .str (if b then "true" else "false")
  | slice none => .null
  | slice (some items) => .arr items
  | mapStringBool none => .null
  | mapStringBool (some m) => .obj ((sortByKey m).map fun e => (e.1, JSON.bool e.2))

end GoValue

/-- One struct field as `encoding/json` sees it: the key of its `json` tag, whether the tag
carries `omitempty`, and the value held. -/
structure Field where
  name : String
  omitempty : Bool
  value : GoValue

namespace Field

/-- A field tagged `json:"name"`. -/
def plain (name : String) (value : GoValue) : Field := ⟨name, false, value⟩

/-- A field tagged `json:"name,omitempty"`. -/
def omitting (name : String) (value : GoValue) : Field := ⟨name, true, value⟩

/-- The field is left out of the object: it is tagged `omitempty` and holds an empty value. -/
def skipped (f : Field) : Bool := f.omitempty && f.value.isEmptyValue

end Field

/-- Members written for the fields of a struct, in declaration order. -/
def encodeFields : List Field → List (String × JSON)
  | [] => []
  | f :: rest =>
    if f.skipped then encodeFields rest else (f.name, f.value.encode) :: encodeFields rest

/-- JSON object written for a struct with the given fields. -/
def encodeStruct (fields : List Field) : JSON := .obj (encodeFields fields)

/-- JSON written for a pointer to a struct: `null` for the nil pointer. -/
def encodePtr {α : Type} (enc : α → JSON) : Option α → JSON
  | none => .null
  | some a => enc a

/-- Encoded elements of a slice, `none` for the nil slice. -/
def encodeItems {α : Type} (enc : α → JSON) (xs : Option (List α)) : Option (List JSON) :=
  xs.map fun l => l.map enc

/-! ## Record types -/

/-- A service entry of the PagerDuty response. -/
structure servicePD where
  ServiceName : Option String
  ServiceKey : Option String

/-- The PagerDuty integration as returned by the service. -/
structure integrationPD where
  Services : Option (List servicePD)
  Subdomain : Option String
  Schedules : Option (List String)
  APIToken : Option String

/-- ServicePDRequest defines the Services struct that is part of the IntegrationPDRequest. -/
structure ServicePDRequest where
  ServiceName : Option String
  ServiceKey : Option String

/-- IntegrationPDRequest defines the request payload for creating and updating the
Datadog-PagerDuty integration. -/
structure IntegrationPDRequest where
  Services : Option (List ServicePDRequest)
  Subdomain : Option String
  Schedules : Option (List String)
  APIToken : Option String
  RunCheck : Option Bool

/-- The anonymous struct `toPost` built by `UpdateIntegrationPDService`. -/
structure ServiceKeyBody where
  ServiceKey : Option String

/-- ServiceHookSlackRequest defines the ServiceHooks struct of the IntegrationSlackRequest. -/
structure ServiceHookSlackRequest where
  Account : Option String
  Url : Option String

/-- ChannelSlackRequest defines the Channels struct of the IntegrationSlackRequest. -/
structure ChannelSlackRequest where
  ChannelName : Option String
  TransferAllUserComments : Option Bool
  Account : Option String

/-- IntegrationSlackRequest defines the request payload for creating and updating the
Datadog-Slack integration. -/
structure IntegrationSlackRequest where
  ServiceHooks : Option (List ServiceHookSlackRequest)
  Channels : Option (List ChannelSlackRequest)
  RunCheck : Option Bool

/-- IntegrationAWSAccount defines the request payload for creating and updating the
Datadog-AWS integration. -/
structure IntegrationAWSAccount where
  AccountID : Option String
  RoleName : Option String
  FilterTags : Option (List String)
  HostTags : Option (List String)
  AccountSpecificNamespaceRules : Option (List (String × Bool))

/-- IntegrationAWSAccountCreateResponse defines the response payload for creating and updating
the Datadog-AWS integration. -/
structure IntegrationAWSAccountCreateResponse where
  ExternalID : String

/-- The wrapper object of the AWS account listing. -/
structure IntegrationAWSAccountGetResponse where
  Accounts : Option (List IntegrationAWSAccount)

/-- Request payload naming the AWS account to delete. -/
structure IntegrationAWSAccountDeleteRequest where
  AccountID : Option String
  RoleName : Option String

/-- Request payload attaching or detaching a lambda ARN. -/
structure IntegrationAWSLambdaARNRequest where
  AccountID : Option String
  LambdaARN : Option String

/-- IntegrationAWSLambdaARN is only defined to properly parse the AWS logs GET response. -/
structure IntegrationAWSLambdaARN where
  LambdaARN : Option String

/-- Request payload enabling log collection for some AWS services. -/
structure IntegrationAWSServicesLogCollection where
  AccountID : Option String
  Services : Option (List String)

/-- IntegrationAWSLogCollection is only defined to properly parse the AWS logs GET response. -/
structure IntegrationAWSLogCollection where
  AccountID : Option String
  LambdaARNs : Option (List IntegrationAWSLambdaARN)
  Services : Option (List String)

/-- IntegrationGCP defines the response for listing the Datadog-Google CloudPlatform
integration. -/
structure IntegrationGCP where
  ProjectID : Option String
  ClientEmail : Option String
  HostFilters : Option String

/-- IntegrationGCPCreateRequest defines the request payload for creating the Datadog-Google
CloudPlatform integration. -/
structure IntegrationGCPCreateRequest where
  Type_ : Option String
  ProjectID : Option String
  PrivateKeyID : Option String
  PrivateKey : Option String
  ClientEmail : Option String
  ClientID : Option String
  AuthURI : Option String
  TokenURI : Option String
  AuthProviderX509CertURL : Option String
  ClientX509CertURL : Option String
  HostFilters : Option String

/-- IntegrationGCPUpdateRequest defines the request payload for updating the Datadog-Google
CloudPlatform integration. -/
structure IntegrationGCPUpdateRequest where
  ProjectID : Option String
  ClientEmail : Option String
  HostFilters : Option String

/-- IntegrationGCPDeleteRequest defines the request payload for deleting the Datadog-Google
CloudPlatform integration. -/
structure IntegrationGCPDeleteRequest where
  ProjectID : Option String
  ClientEmail : Option String

/-! ## Struct tags and encoders

Each `fields` table lists the fields of the struct in declaration order with the key and the
options of its `json` tag. -/

/-- Fields of `servicePD`. -/
def servicePD.fields (r : servicePD) : List Field :=
  [ .plain "service_name" (.ptrString r.ServiceName),
    .plain "service_key" (.ptrString r.ServiceKey) ]

/-- Encoding of `servicePD`. -/
def servicePD.marshal (r : servicePD) : JSON := encodeStruct r.fields

/-- Fields of `integrationPD`. -/
def integrationPD.fields (r : integrationPD) : List Field :=
  [ .plain "services" (.slice (encodeItems servicePD.marshal r.Services)),
    .plain "subdomain" (.ptrString r.Subdomain),
    .plain "schedules" (.slice (encodeItems JSON.str r.Schedules)),
    .plain "api_token" (.ptrString r.APIToken) ]

/-- Encoding of `integrationPD`. -/
def integrationPD.marshal (r : integrationPD) : JSON := encodeStruct r.fields

/-- Fields of `ServicePDRequest`. -/
def ServicePDRequest.fields (r : ServicePDRequest) : List Field :=
  [ .plain "service_name" (.ptrString r.ServiceName),
    .plain "service_key" (.ptrString r.ServiceKey) ]

/-- Encoding of `ServicePDRequest`. -/
def ServicePDRequest.marshal (r : ServicePDRequest) : JSON := encodeStruct r.fields

/-- Fields of `IntegrationPDRequest`. -/
def IntegrationPDRequest.fields (r : IntegrationPDRequest) : List Field :=
  [ .omitting "services" (.slice (encodeItems ServicePDRequest.marshal r.Services)),
    .omitting "subdomain" (.ptrString r.Subdomain),
    .omitting "schedules" (.slice (encodeItems JSON.str r.Schedules)),
    .omitting "api_token" (.ptrString r.APIToken),
    .omitting "run_check" (.ptrBool r.RunCheck) ]

/-- Encoding of `IntegrationPDRequest`. -/
def IntegrationPDRequest.marshal (r : IntegrationPDRequest) : JSON := encodeStruct r.fields

/-- Fields of the anonymous struct posted by `UpdateIntegrationPDService`. -/
def ServiceKeyBody.fields (r : ServiceKeyBody) : List Field :=
  [ .omitting "service_key" (.ptrString r.ServiceKey) ]

/-- Encoding of the anonymous struct posted by `UpdateIntegrationPDService`. -/
def ServiceKeyBody.marshal (r : ServiceKeyBody) : JSON := encodeStruct r.fields

/-- Fields of `ServiceHookSlackRequest`. -/
def ServiceHookSlackRequest.fields (r : ServiceHookSlackRequest) : List Field :=
  [ .plain "account" (.ptrString r.Account),
    .plain "url" (.ptrString r.Url) ]

/-- Encoding of `ServiceHookSlackRequest`. -/
def ServiceHookSlackRequest.marshal (r : ServiceHookSlackRequest) : JSON :=
  encodeStruct r.fields

/-- Fields of `ChannelSlackRequest`. -/
def ChannelSlackRequest.fields (r : ChannelSlackRequest) : List Field :=
  [ .plain "channel_name" (.ptrString r.ChannelName),
    .omitting "transfer_all_user_comments" (.ptrBoolString r.TransferAllUserComments),
    .plain "account" (.ptrString r.Account) ]

/-- Encoding of `ChannelSlackRequest`. -/
def ChannelSlackRequest.marshal (r : ChannelSlackRequest) : JSON := encodeStruct r.fields

/-- Fields of `IntegrationSlackRequest`. -/
def IntegrationSlackRequest.fields (r : IntegrationSlackRequest) : List Field :=
  [ .omitting "service_hooks" (.slice (encodeItems ServiceHookSlackRequest.marshal r.ServiceHooks)),
    .omitting "channels" (.slice (encodeItems ChannelSlackRequest.marshal r.Channels)),
    .omitting "run_check" (.ptrBoolString r.RunCheck) ]

/-- Encoding of `IntegrationSlackRequest`. -/
def IntegrationSlackRequest.marshal (r : IntegrationSlackRequest) : JSON :=
  encodeStruct r.fields

/-- Fields of `IntegrationAWSAccount`. -/
def IntegrationAWSAccount.fields (r : IntegrationAWSAccount) : List Field :=
  [ .plain "account_id" (.ptrString r.AccountID),
    .plain "role_name" (.ptrString r.RoleName),
    .plain "filter_tags" (.slice (encodeItems JSON.str r.FilterTags)),
    .plain "host_tags" (.slice (encodeItems JSON.str r.HostTags)),
    .plain "account_specific_namespace_rules"
      (.mapStringBool r.AccountSpecificNamespaceRules) ]

/-- Encoding of `IntegrationAWSAccount`. -/
def IntegrationAWSAccount.marshal (r : IntegrationAWSAccount) : JSON := encodeStruct r.fields

/-- Fields of `IntegrationAWSAccountCreateResponse`. -/
def IntegrationAWSAccountCreateResponse.fields (r : IntegrationAWSAccountCreateResponse) :
    List Field :=
  [ .plain "external_id" (.string r.ExternalID) ]

/-- Encoding of `IntegrationAWSAccountCreateResponse`. -/
def IntegrationAWSAccountCreateResponse.marshal (r : IntegrationAWSAccountCreateResponse) :
    JSON :=
  encodeStruct r.fields

/-- Fields of `IntegrationAWSAccountGetResponse`. -/
def IntegrationAWSAccountGetResponse.fields (r : IntegrationAWSAccountGetResponse) :
    List Field :=
  [ .plain "accounts" (.slice (encodeItems IntegrationAWSAccount.marshal r.Accounts)) ]

/-- Encoding of `IntegrationAWSAccountGetResponse`. -/
def IntegrationAWSAccountGetResponse.marshal (r : IntegrationAWSAccountGetResponse) : JSON :=
  encodeStruct r.fields

/-- Fields of `IntegrationAWSAccountDeleteRequest`. -/
def IntegrationAWSAccountDeleteRequest.fields (r : IntegrationAWSAccountDeleteRequest) :
    List Field :=
  [ .plain "account_id" (.ptrString r.AccountID),
    .plain "role_name" (.ptrString r.RoleName) ]

/-- Encoding of `IntegrationAWSAccountDeleteRequest`. -/
def IntegrationAWSAccountDeleteRequest.marshal (r : IntegrationAWSAccountDeleteRequest) :
    JSON :=
  encodeStruct r.fields

/-- Fields of `IntegrationAWSLambdaARNRequest`. -/
def IntegrationAWSLambdaARNRequest.fields (r : IntegrationAWSLambdaARNRequest) : List Field :=
  [ .plain "account_id" (.ptrString r.AccountID),
    .plain "lambda_arn" (.ptrString r.LambdaARN) ]

/-- Encoding of `IntegrationAWSLambdaARNRequest`. -/
def IntegrationAWSLambdaARNRequest.marshal (r : IntegrationAWSLambdaARNRequest) : JSON :=
  encodeStruct r.fields

/-- Fields of `IntegrationAWSLambdaARN`. -/
def IntegrationAWSLambdaARN.fields (r : IntegrationAWSLambdaARN) : List Field :=
  [ .plain "arn" (.ptrString r.LambdaARN) ]

/-- Encoding of `IntegrationAWSLambdaARN`. -/
def IntegrationAWSLambdaARN.marshal (r : IntegrationAWSLambdaARN) : JSON :=
  encodeStruct r.fields

/-- Fields of `IntegrationAWSServicesLogCollection`. -/
def IntegrationAWSServicesLogCollection.fields (r : IntegrationAWSServicesLogCollection) :
    List Field :=
  [ .plain "account_id" (.ptrString r.AccountID),
    .plain "services" (.slice (encodeItems JSON.str r.Services)) ]

/-- Encoding of `IntegrationAWSServicesLogCollection`. -/
def IntegrationAWSServicesLogCollection.marshal (r : IntegrationAWSServicesLogCollection) :
    JSON :=
  encodeStruct r.fields

/-- Fields of `IntegrationAWSLogCollection`. -/
def IntegrationAWSLogCollection.fields (r : IntegrationAWSLogCollection) : List Field :=
  [ .plain "account_id" (.ptrString r.AccountID),
    .plain "lambdas" (.slice (encodeItems IntegrationAWSLambdaARN.marshal r.LambdaARNs)),
    .plain "services" (.slice (encodeItems JSON.str r.Services)) ]

/-- Encoding of `IntegrationAWSLogCollection`. -/
def IntegrationAWSLogCollection.marshal (r : IntegrationAWSLogCollection) : JSON :=
  encodeStruct r.fields

/-- Fields of `IntegrationGCP`. -/
def IntegrationGCP.fields (r : IntegrationGCP) : List Field :=
  [ .plain "project_id" (.ptrString r.ProjectID),
    .plain "client_email" (.ptrString r.ClientEmail),
    .plain "host_filters" (.ptrString r.HostFilters) ]

/-- Encoding of `IntegrationGCP`. -/
def IntegrationGCP.marshal (r : IntegrationGCP) : JSON := encodeStruct r.fields

/-- Fields of `IntegrationGCPCreateRequest`. -/
def IntegrationGCPCreateRequest.fields (r : IntegrationGCPCreateRequest) : List Field :=
  [ .plain "type" (.ptrString r.Type_),
    .plain "project_id" (.ptrString r.ProjectID),
    .plain "private_key_id" (.ptrString r.PrivateKeyID),
    .plain "private_key" (.ptrString r.PrivateKey),
    .plain "client_email" (.ptrString r.ClientEmail),
    .plain "client_id" (.ptrString r.ClientID),
    .plain "auth_uri" (.ptrString r.AuthURI),
    .plain "token_uri" (.ptrString r.TokenURI),
    .plain "auth_provider_x509_cert_url" (.ptrString r.AuthProviderX509CertURL),
    .plain "client_x509_cert_url" (.ptrString r.ClientX509CertURL),
    .omitting "host_filters" (.ptrString r.HostFilters) ]

/-- Encoding of `IntegrationGCPCreateRequest`. -/
def IntegrationGCPCreateRequest.marshal (r : IntegrationGCPCreateRequest) : JSON :=
  encodeStruct r.fields

/-- Fields of `IntegrationGCPUpdateRequest`. -/
def IntegrationGCPUpdateRequest.fields (r : IntegrationGCPUpdateRequest) : List Field :=
  [ .plain "project_id" (.ptrString r.ProjectID),
    .plain "client_email" (.ptrString r.ClientEmail),
    .omitting "host_filters" (.ptrString r.HostFilters) ]

/-- Encoding of `IntegrationGCPUpdateRequest`. -/
def IntegrationGCPUpdateRequest.marshal (r : IntegrationGCPUpdateRequest) : JSON :=
  encodeStruct r.fields

/-- Fields of `IntegrationGCPDeleteRequest`. -/
def IntegrationGCPDeleteRequest.fields (r : IntegrationGCPDeleteRequest) : List Field :=
  [ .plain "project_id" (.ptrString r.ProjectID),
    .plain "client_email" (.ptrString r.ClientEmail) ]

/-- Encoding of `IntegrationGCPDeleteRequest`. -/
def IntegrationGCPDeleteRequest.marshal (r : IntegrationGCPDeleteRequest) : JSON :=
  encodeStruct r.fields

/-! ## `net/url`: query escaping and `url.Values` -/

/-- Go's `shouldEscape(c, encodeQueryComponent)`: everything is escaped except ASCII letters,
digits and the marks `-`, `_`, `.`, `~`. -/
def shouldEscape (c : Char) : Bool :=
  if ('a' ≤ c ∧ c ≤ 'z') ∨ ('A' ≤ c ∧ c ≤ 'Z') ∨ ('0' ≤ c ∧ c ≤ '9') then
    false
  else if c = '-' ∨ c = '_' ∨ c = '.' ∨ c = '~' then false
  else true

/-- Go's `upperhex[n]`, the upper-case hexadecimal digit of `n < 16`. -/
def upperhex (n : Nat) : Char :=
  if n < 10 then Char.ofNat (48 + n) else Char.ofNat (55 + n)

/-- The three characters `%XY` written for one escaped byte. -/
def escapeByte (b : Nat) : List Char := ['%', upperhex (b / 16), upperhex (b % 16)]

/-- What `escape` writes for one character of the input: `+` for a space, the character itself
when it need not be escaped, and otherwise `%XY` for each byte of its UTF-8 encoding. -/
def escapeChar (c : Char) : List Char :=
  if c = ' ' then ['+']
  else if shouldEscape c then
    (String.utf8EncodeChar c).flatMap fun b => escapeByte b.toNat
  else [c]

/-- Go's `url.QueryEscape`. -/
def QueryEscape (s : String) : String := ⟨s.data.flatMap escapeChar⟩

/-- Go's `url.Values`: the values recorded under each key. Keys are distinct. -/
abbrev Values := List (String × List String)

namespace Values

/-- Go's `Values.Set`: `v[key] = []string{value}`. -/
def Set (v : Values) (key value : String) : Values :=
  match v with
  | [] => [(key, [value])]
  | e :: rest => if e.1 = key then (key, [value]) :: rest else e :: Set rest key value

/-- Go's `Values.Add`: `v[key] = append(v[key], value)`. -/
def Add (v : Values) (key value : String) : Values :=
  match v with
  | [] => [(key, [value])]
  | e :: rest => if e.1 = key then (key, e.2 ++ [value]) :: rest else e :: Add rest key value

/-- The inner loop of `Values.Encode`: append `key=value` for each value of one key, with a
`&` in front whenever the buffer is not empty. -/
def writeKey (keyEscaped : String) : String → List String → String
  | buf, [] => buf
  | buf, v :: vs =>
    writeKey keyEscaped
      ((if buf.length > 0 then buf ++ "&" else buf) ++ keyEscaped ++ "=" ++ QueryEscape v) vs

/-- The outer loop of `Values.Encode` over the sorted keys. -/
def writeKeys : String → List (String × List String) → String
  | buf, [] => buf
  | buf, e :: rest => writeKeys (writeKey (QueryEscape e.1) buf e.2) rest

/-- Go's `Values.Encode`: the URL-encoded form `bar=baz&foo=quux`, sorted by key. -/
def Encode (v : Values) : String := writeKeys "" (sortByKey v)

end Values

/-! ## The executor and the run of a binding -/

/-- The `reqbody` argument of `doJsonRequest`: the untyped `nil` when the binding supplies no
request body, the struct posted by `UpdateIntegrationPDService`, or a pointer to one of the
request records. -/
inductive Payload where
  | nil
  | serviceKey (v : ServiceKeyBody)
  | pdRequest (p : Option IntegrationPDRequest)
  | servicePDRequest (p : Option ServicePDRequest)
  | slackRequest (p : Option IntegrationSlackRequest)
  | awsAccount (p : Option IntegrationAWSAccount)
  | awsDeleteRequest (p : Option IntegrationAWSAccountDeleteRequest)
  | awsLambdaARNRequest (p : Option IntegrationAWSLambdaARNRequest)
  | awsServicesLogCollection (p : Option IntegrationAWSServicesLogCollection)
  | gcpCreateRequest (p : Option IntegrationGCPCreateRequest)
  | gcpUpdateRequest (p : Option IntegrationGCPUpdateRequest)
  | gcpDeleteRequest (p : Option IntegrationGCPDeleteRequest)

/-- Go's `json.Marshal` of the value passed as `reqbody`. -/
def Payload.marshal : Payload → JSON
  | .nil => .null
  | .serviceKey v => v.marshal
  | .pdRequest p => encodePtr IntegrationPDRequest.marshal p
  | .servicePDRequest p => encodePtr ServicePDRequest.marshal p
  | .slackRequest p => encodePtr IntegrationSlackRequest.marshal p
  | .awsAccount p => encodePtr IntegrationAWSAccount.marshal p
  | .awsDeleteRequest p => encodePtr IntegrationAWSAccountDeleteRequest.marshal p
  | .awsLambdaARNRequest p => encodePtr IntegrationAWSLambdaARNRequest.marshal p
  | .awsServicesLogCollection p => encodePtr IntegrationAWSServicesLogCollection.marshal p
  | .gcpCreateRequest p => encodePtr IntegrationGCPCreateRequest.marshal p
  | .gcpUpdateRequest p => encodePtr IntegrationGCPUpdateRequest.marshal p
  | .gcpDeleteRequest p => encodePtr IntegrationGCPDeleteRequest.marshal p

/-- The `out` argument of `doJsonRequest`: `nil`, or the address of a fresh variable of one of
the response types. -/
inductive Out where
  | nil
  | integrationPD
  | ServicePDRequest
  | IntegrationSlackRequest
  | IntegrationAWSAccountCreateResponse
  | IntegrationAWSAccountGetResponse
  | IntegrationAWSLogCollections
  | IntegrationGCPs

/-- The type of the variable `out` points to. -/
def Out.Val : Out → Type
  | .nil => Unit
  | .integrationPD => Datadog.integrationPD
  | .ServicePDRequest => Datadog.ServicePDRequest
  | .IntegrationSlackRequest => Datadog.IntegrationSlackRequest
  | .IntegrationAWSAccountCreateResponse => Datadog.IntegrationAWSAccountCreateResponse
  | .IntegrationAWSAccountGetResponse => Datadog.IntegrationAWSAccountGetResponse
  | .IntegrationAWSLogCollections => Option (List IntegrationAWSLogCollection)
  | .IntegrationGCPs => Option (List (Option IntegrationGCP))

/-- One call of the executor: `doJsonRequest(method, api, reqbody, out)`. -/
structure Call where
  method : String
  api : String
  reqbody : Payload
  out : Out

/-- The executor `client.doJsonRequest`, a parameter of every binding. A call leaves a value in
the variable behind `out` and returns an error or `nil`; it may do both. -/
abbrev Executor (ε : Type) := (c : Call) → c.out.Val × Option ε

/-- The run of a Go function: the executor calls it made, and either the value it returned or
the fact that it stopped in a nil-dereference panic. -/
inductive Go (α : Type) where
  | panic (calls : List Call)
  | ret (calls : List Call) (a : α)

namespace Go

/-- Run `x`, then `f` on its value; a panic ends the run. -/
def bind {α β : Type} : Go α → (α → Go β) → Go β
  | panic calls, _ => panic calls
  | ret calls a, f =>
    match f a with
    | panic calls' => panic (calls ++ calls')
    | ret calls' b => ret (calls ++ calls') b

instance : Monad Go where
  pure a := ret [] a
  bind := bind

/-- The executor calls made during the run. -/
def calls {α : Type} : Go α → List Call
  | panic cs => cs
  | ret cs _ => cs

/-- The run ended in a panic. -/
def panicked {α : Type} : Go α → Bool
  | panic _ => true
  | ret _ _ => false

/-- The value returned, when the run returned. -/
def result {α : Type} : Go α → Option α
  | panic _ => none
  | ret _ a => some a

end Go

/-- Go's `*p`: the value behind a pointer, a panic when the pointer is nil. Reading a field
`p.f` through a struct pointer goes through the same dereference. -/
def deref {α : Type} : Option α → Go α
  | none => .panic []
  | some a => .ret [] a

/-- The call `client.doJsonRequest(method, api, reqbody, out)`: one recorded executor call. -/
def doJsonRequest {ε : Type} (client : Executor ε) (method api : String) (reqbody : Payload)
    (out : Out) : Go (out.Val × Option ε) :=
  .ret [⟨method, api, reqbody, out⟩] (client ⟨method, api, reqbody, out⟩)

/-! ## The bindings -/

section Bindings

variable {ε : Type}

/-- CreateIntegrationPD creates new PagerDuty Integrations. -/
def CreateIntegrationPD (client : Executor ε) (pdIntegration : Option IntegrationPDRequest) :
    Go (Option ε) := do
  let (_, err) ← doJsonRequest client "PUT" "/v1/integration/pagerduty"
    (.pdRequest pdIntegration) .nil
  return err

/-- UpdateIntegrationPD updates the PagerDuty Integration. -/
def UpdateIntegrationPD (client : Executor ε) (pdIntegration : Option IntegrationPDRequest) :
    Go (Option ε) := do
  let (_, err) ← doJsonRequest client "PUT" "/v1/integration/pagerduty"
    (.pdRequest pdIntegration) .nil
  return err

/-- GetIntegrationPD gets all the PagerDuty Integrations from the system. -/
def GetIntegrationPD (client : Executor ε) : Go (Option integrationPD × Option ε) := do
  let (out, err) ← doJsonRequest client "GET" "/v1/integration/pagerduty" .nil .integrationPD
  match err with
  | some err => return (none, some err)
  | none => return (some out, none)

/-- DeleteIntegrationPD removes the PagerDuty Integration from the system. -/
def DeleteIntegrationPD (client : Executor ε) : Go (Option ε) := do
  let (_, err) ← doJsonRequest client "DELETE" "/v1/integration/pagerduty" .nil .nil
  return err

/-- CreateIntegrationPDService creates a single service object in the PagerDuty integration. -/
def CreateIntegrationPDService (client : Executor ε) (serviceObject : Option ServicePDRequest) :
    Go (Option ε) := do
  let (_, err) ← doJsonRequest client "POST" "/v1/integration/pagerduty/configuration/services"
    (.servicePDRequest serviceObject) .nil
  return err

/-- UpdateIntegrationPDService updates a single service object in the PagerDuty integration.
Only the ServiceKey is posted, not the ServiceName. -/
def UpdateIntegrationPDService (client : Executor ε) (serviceObject : Option ServicePDRequest) :
    Go (Option ε) := do
  let toPost : ServiceKeyBody := ⟨(← deref serviceObject).ServiceKey⟩
  let uri := "/v1/integration/pagerduty/configuration/services/" ++
    (← deref (← deref serviceObject).ServiceName)
  let (_, err) ← doJsonRequest client "PUT" uri (.serviceKey toPost) .nil
  return err

/-- GetIntegrationPDService gets a single service object in the PagerDuty integration. -/
def GetIntegrationPDService (client : Executor ε) (serviceName : String) :
    Go (Option ServicePDRequest × Option ε) := do
  let uri := "/v1/integration/pagerduty/configuration/services/" ++ serviceName
  let (out, err) ← doJsonRequest client "GET" uri .nil .ServicePDRequest
  match err with
  | some err => return (none, some err)
  | none => return (some out, none)

/-- DeleteIntegrationPDService deletes a single service object in the PagerDuty integration. -/
def DeleteIntegrationPDService (client : Executor ε) (serviceName : String) :
    Go (Option ε) := do
  let uri := "/v1/integration/pagerduty/configuration/services/" ++ serviceName
  let (_, err) ← doJsonRequest client "DELETE" uri .nil .nil
  return err

/-- CreateIntegrationSlack creates new Slack Integrations. -/
def CreateIntegrationSlack (client : Executor ε)
    (slackIntegration : Option IntegrationSlackRequest) : Go (Option ε) := do
  let (_, err) ← doJsonRequest client "POST" "/v1/integration/slack"
    (.slackRequest slackIntegration) .nil
  return err

/-- UpdateIntegrationSlack updates the Slack Integration. -/
def UpdateIntegrationSlack (client : Executor ε)
    (slackIntegration : Option IntegrationSlackRequest) : Go (Option ε) := do
  let (_, err) ← doJsonRequest client "PUT" "/v1/integration/slack"
    (.slackRequest slackIntegration) .nil
  return err

/-- GetIntegrationSlack gets all the Slack Integrations from the system. -/
def GetIntegrationSlack (client : Executor ε) :
    Go (Option IntegrationSlackRequest × Option ε) := do
  let (out, err) ← doJsonRequest client "GET" "/v1/integration/slack" .nil
    .IntegrationSlackRequest
  match err with
  | some err => return (none, some err)
  | none => return (some out, none)

/-- DeleteIntegrationSlack removes the Slack Integration from the system. -/
def DeleteIntegrationSlack (client : Executor ε) : Go (Option ε) := do
  let (_, err) ← doJsonRequest client "DELETE" "/v1/integration/slack" .nil .nil
  return err

/-- CreateIntegrationAWS adds a new AWS Account in the AWS Integrations. -/
def CreateIntegrationAWS (client : Executor ε) (awsAccount : Option IntegrationAWSAccount) :
    Go (Option IntegrationAWSAccountCreateResponse × Option ε) := do
  let (out, err) ← doJsonRequest client "POST" "/v1/integration/aws"
    (.awsAccount awsAccount) .IntegrationAWSAccountCreateResponse
  match err with
  | some err => return (none, some err)
  | none => return (some out, none)

/-- UpdateIntegrationAWS updates an already existing AWS Account in the AWS Integration. -/
def UpdateIntegrationAWS (client : Executor ε) (awsAccount : Option IntegrationAWSAccount) :
    Go (Option ε) := do
  let additionalParameters : Values := []
  let additionalParameters := additionalParameters.Set "account_id"
    (← deref (← deref awsAccount).AccountID)
  let additionalParameters := additionalParameters.Add "role_name"
    (← deref (← deref awsAccount).RoleName)
  let (_, err) ← doJsonRequest client "PUT"
    ("/v1/integration/aws?" ++ additionalParameters.Encode) (.awsAccount awsAccount) .nil
  return err

/-- GetIntegrationAWS gets all the AWS Accounts in the AWS Integrations from Datadog. The
result is the address of the `Accounts` field of the decoded wrapper. -/
def GetIntegrationAWS (client : Executor ε) :
    Go (Option (Option (List IntegrationAWSAccount)) × Option ε) := do
  let (response, err) ← doJsonRequest client "GET" "/v1/integration/aws" .nil
    .IntegrationAWSAccountGetResponse
  match err with
  | some err => return (none, some err)
  | none => return (some response.Accounts, none)

/-- DeleteIntegrationAWS removes a specific AWS Account from the AWS Integration. -/
def DeleteIntegrationAWS (client : Executor ε)
    (awsAccount : Option IntegrationAWSAccountDeleteRequest) : Go (Option ε) := do
  let (_, err) ← doJsonRequest client "DELETE" "/v1/integration/aws"
    (.awsDeleteRequest awsAccount) .nil
  return err

/-- AttachLambdaARNIntegrationAWS attaches a lambda ARN to an AWS account ID to enable log
collection. -/
def AttachLambdaARNIntegrationAWS (client : Executor ε)
    (lambdaARN : Option IntegrationAWSLambdaARNRequest) : Go (Option ε) := do
  let (_, err) ← doJsonRequest client "POST" "/v1/integration/aws/logs"
    (.awsLambdaARNRequest lambdaARN) .nil
  return err

/-- EnableLogCollectionAWSServices enables the log collection for the given AWS services. -/
def EnableLogCollectionAWSServices (client : Executor ε)
    (services : Option IntegrationAWSServicesLogCollection) : Go (Option ε) := do
  let (_, err) ← doJsonRequest client "POST" "/v1/integration/aws/logs/services"
    (.awsServicesLogCollection services) .nil
  return err

/-- GetIntegrationAWSLogCollection gets all the configuration for the AWS log collection. -/
def GetIntegrationAWSLogCollection (client : Executor ε) :
    Go (Option (Option (List IntegrationAWSLogCollection)) × Option ε) := do
  let (response, err) ← doJsonRequest client "GET" "/v1/integration/aws/logs" .nil
    .IntegrationAWSLogCollections
  match err with
  | some err => return (none, some err)
  | none => return (some response, none)

/-- DeleteAWSLogCollection removes the log collection configuration for a given ARN and AWS
account. -/
def DeleteAWSLogCollection (client : Executor ε)
    (lambdaARN : Option IntegrationAWSLambdaARNRequest) : Go (Option ε) := do
  let (_, err) ← doJsonRequest client "DELETE" "/v1/integration/aws/logs"
    (.awsLambdaARNRequest lambdaARN) .nil
  return err

/-- ListIntegrationGCP gets all Google Cloud Platform Integrations. The result is the slice
itself, so a nil result is the nil slice. -/
def ListIntegrationGCP (client : Executor ε) :
    Go (Option (List (Option IntegrationGCP)) × Option ε) := do
  let (list, err) ← doJsonRequest client "GET" "/v1/integration/gcp" .nil .IntegrationGCPs
  match err with
  | some err => return (none, some err)
  | none => return (list, none)

/-- CreateIntegrationGCP creates a new Google Cloud Platform Integration. -/
def CreateIntegrationGCP (client : Executor ε) (cir : Option IntegrationGCPCreateRequest) :
    Go (Option ε) := do
  let (_, err) ← doJsonRequest client "POST" "/v1/integration/gcp" (.gcpCreateRequest cir) .nil
  return err

/-- UpdateIntegrationGCP updates a Google Cloud Platform Integration. -/
def UpdateIntegrationGCP (client : Executor ε) (cir : Option IntegrationGCPUpdateRequest) :
    Go (Option ε) := do
  let (_, err) ← doJsonRequest client "POST" "/v1/integration/gcp/host_filters"
    (.gcpUpdateRequest cir) .nil
  return err

/-- DeleteIntegrationGCP deletes a Google Cloud Platform Integration. -/
def DeleteIntegrationGCP (client : Executor ε) (cir : Option IntegrationGCPDeleteRequest) :
    Go (Option ε) := do
  let (_, err) ← doJsonRequest client "DELETE" "/v1/integration/gcp" (.gcpDeleteRequest cir) .nil
  return err

end Bindings

/-! ## Definitions used to state the properties -/

/-- Go's zero value of the variable behind `out`. -/
def Out.zero : (o : Out) → o.Val
  | .nil => ()
  | .integrationPD => ⟨none, none, none, none⟩
  | .ServicePDRequest => ⟨none, none⟩
  | .IntegrationSlackRequest => ⟨none, none, none⟩
  | .IntegrationAWSAccountCreateResponse => ⟨""⟩
  | .IntegrationAWSAccountGetResponse => ⟨none⟩
  | .IntegrationAWSLogCollections => none
  | .IntegrationGCPs => none

/-- An executor that succeeds and leaves every `out` variable at its zero value. -/
def idleExecutor : Executor String := fun c => (c.out.zero, none)

/-- The run returned after exactly one executor call, made with the given method and path. -/
def Go.callsOnce {α : Type} (run : Go α) (method api : String) : Bool :=
  !run.panicked &&
    match run.calls with
    | [c] => c.method == method && c.api == api
    | _ => false

/-- The JSON object `UpdateIntegrationPDService` is expected to post for a service key:
`{"service_key": k}` when the key is set and `{}` when it is not. -/
def serviceKeyObject : Option String → JSON
  | some k => .obj [("service_key", .str k)]
  | none => .obj []

/-- An unreserved character in the words of the specification: an ASCII letter, a digit, or one
of `-`, `_`, `.`, `~`. -/
def isUnreserved (c : Char) : Bool :=
  c.isAlpha || c.isDigit || c == '-' || c == '_' || c == '.' || c == '~'

/-- The run of a binding that returns only an error hands the executor's answer on: it made
one call and returned exactly what the executor returned for it, an error or nil. -/
def Go.returnsErrorOf {ε : Type} (run : Go (Option ε)) (client : Executor ε) : Prop :=
  ∃ c : Call, run.calls = [c] ∧ run.result = some (client c).2

/-- The run of a result-returning binding is determined by the executor outcome
`(out, err)`: when `err` is an error `e` the binding returns a nil result and exactly `e`;
when `err` is nil it returns no error and `value out`, the value taken from what the executor
decoded. -/
def Go.propagates {α β ε : Type} (run : Go (Option β × Option ε)) (outcome : α × Option ε)
    (value : α → Option β) : Prop :=
  (∀ e, outcome.2 = some e → run.result = some (none, some e)) ∧
  (outcome.2 = none → run.result = some (value outcome.1, none))

/-- The run discards a failure reported by the executor: the executor returned an error for
the call made, yet the run returned a non-nil output and no error. -/
def Go.discardsFailure {α ε : Type} (client : Executor ε) (run : Go (Option α × Option ε)) :
    Prop :=
  ∃ (c : Call) (e : ε) (out : α),
    run.calls = [c] ∧ (client c).2 = some e ∧ run.result = some (some out, none)

/-- A partly filled value behind `out`, as a decoder leaves it when it stops half-way. -/
def Out.partlyFilled : (o : Out) → o.Val
  | .nil => ()
  | .integrationPD => ⟨none, some "acme", none, none⟩
  | .ServicePDRequest => ⟨some "svc1", none⟩
  | .IntegrationSlackRequest => ⟨some [⟨some "main", none⟩], none, none⟩
  | .IntegrationAWSAccountCreateResponse => ⟨"ext"⟩
  | .IntegrationAWSAccountGetResponse => ⟨some [⟨some "123", none, none, none, none⟩]⟩
  | .IntegrationAWSLogCollections => some [⟨some "123", none, none⟩]
  | .IntegrationGCPs => some [some ⟨some "proj", none, none⟩, none]

/-- An executor whose response decoding fails: it leaves a partly filled value behind `out`
and reports the failure. -/
def failingDecodeExecutor : Executor String :=
  fun c => (c.out.partlyFilled, some "json: cannot unmarshal response")

/-- The rest of `path` after the characters of `base`, when `path` starts with them. -/
def stripBase : List Char → List Char → Option (List Char)
  | [], rest => some rest
  | _ :: _, [] => none
  | b :: bs, c :: cs => if b = c then stripBase bs cs else none

/-- The path is `base` followed by a single path segment: what follows `base` has no `/`,
no `?` and no `#`. -/
def isSingleSegmentUnder (base path : String) : Bool :=
  match stripBase base.data path.data with
  | some seg => seg.all fun c => c != '/' && c != '?' && c != '#'
  | none => false

/-- A value of one of the request record types of the file. -/
inductive RequestRecord where
  | ServicePDRequest (r : Datadog.ServicePDRequest)
  | IntegrationPDRequest (r : Datadog.IntegrationPDRequest)
  | IntegrationSlackRequest (r : Datadog.IntegrationSlackRequest)
  | ServiceHookSlackRequest (r : Datadog.ServiceHookSlackRequest)
  | ChannelSlackRequest (r : Datadog.ChannelSlackRequest)
  | IntegrationAWSAccount (r : Datadog.IntegrationAWSAccount)
  | IntegrationAWSAccountDeleteRequest (r : Datadog.IntegrationAWSAccountDeleteRequest)
  | IntegrationAWSLambdaARNRequest (r : Datadog.IntegrationAWSLambdaARNRequest)
  | IntegrationAWSServicesLogCollection (r : Datadog.IntegrationAWSServicesLogCollection)
  | IntegrationGCPCreateRequest (r : Datadog.IntegrationGCPCreateRequest)
  | IntegrationGCPUpdateRequest (r : Datadog.IntegrationGCPUpdateRequest)
  | IntegrationGCPDeleteRequest (r : Datadog.IntegrationGCPDeleteRequest)

/-- The tagged fields of a request record. -/
def RequestRecord.fields : RequestRecord → List Field
  | .ServicePDRequest r => r.fields
  | .IntegrationPDRequest r => r.fields
  | .IntegrationSlackRequest r => r.fields
  | .ServiceHookSlackRequest r => r.fields
  | .ChannelSlackRequest r => r.fields
  | .IntegrationAWSAccount r => r.fields
  | .IntegrationAWSAccountDeleteRequest r => r.fields
  | .IntegrationAWSLambdaARNRequest r => r.fields
  | .IntegrationAWSServicesLogCollection r => r.fields
  | .IntegrationGCPCreateRequest r => r.fields
  | .IntegrationGCPUpdateRequest r => r.fields
  | .IntegrationGCPDeleteRequest r => r.fields

/-- The serialized JSON object of a request record. -/
def RequestRecord.marshal : RequestRecord → JSON
  | .ServicePDRequest r => r.marshal
  | .IntegrationPDRequest r => r.marshal
  | .IntegrationSlackRequest r => r.marshal
  | .ServiceHookSlackRequest r => r.marshal
  | .ChannelSlackRequest r => r.marshal
  | .IntegrationAWSAccount r => r.marshal
  | .IntegrationAWSAccountDeleteRequest r => r.marshal
  | .IntegrationAWSLambdaARNRequest r => r.marshal
  | .IntegrationAWSServicesLogCollection r => r.marshal
  | .IntegrationGCPCreateRequest r => r.marshal
  | .IntegrationGCPUpdateRequest r => r.marshal
  | .IntegrationGCPDeleteRequest r => r.marshal

/-- The field is of a pointer type. -/
def GoValue.isPointer : GoValue → Bool
  | .ptrString _ => true
  | .ptrBool _ => true
  | .ptrBoolString _ => true
  | _ => false

/-- The field is explicitly set to its zero value: a pointer to `""` or to `false`, an empty
non-nil slice or an empty non-nil map. -/
def GoValue.isZeroSet : GoValue → Bool
  | .ptrString (some s) => s == ""
  | .ptrBool (some b) => b == false
  | .ptrBoolString (some b) => b == false
  | .slice (some items) => items.isEmpty
  | .mapStringBool (some m) => m.isEmpty
  | _ => false

/-- The JSON form of the zero value of a field: `""`, `false`, `[]` or `{}`, and the JSON
string `"false"` for a boolean whose tag carries the `string` option. -/
def GoValue.zeroJSON : GoValue → JSON
  | .string _ => .str ""
  | .ptrString _ => .str ""
  | .ptrBool _ => .bool false
  | .ptrBoolString _ => .str "false"
  | .slice _ => .arr []
  | .mapStringBool _ => .obj []

/-! ## `encoding/json`: decoding

`json.Unmarshal` into a fresh zero value, for the kinds of the response types. The result is
`none` when `Unmarshal` returns an error. Members of an object are stored in the order they
are read. A member that repeats an earlier name is decoded as a first one is, into a fresh
field: Go would decode it into the value already stored, and nothing below is stated about
documents with repeated names. A JSON string is stored as `unquote` reads it, with U+FFFD in
place of every unpaired surrogate escape. -/

/-- Go's `foldRune` as far as ASCII is concerned: a lower-case ASCII letter folds to its upper
case, and so do the Kelvin sign and the long s, the two other characters whose fold orbit
holds an ASCII letter. Every other character folds outside ASCII and is kept as it is. -/
def foldRune (c : Char) : Char :=
  if 'a' ≤ c ∧ c ≤ 'z' then Char.ofNat (c.toNat - 32)
  else if c = Char.ofNat 0x212A then 'K'
  else if c = Char.ofNat 0x17F then 'S'
  else c

/-- Go's `foldName` of an object key. -/
def foldName (s : String) : List Char := s.data.map foldRune

/-- The object key selects the field with the given ASCII tag name: the names are equal, or
equal after case folding. No two fields of one struct of this file fold to the same name, so
the exact match Go tries first selects the same field. -/
def sameField (key name : String) : Bool := foldName key == foldName name

/-- Decode into a `string` that holds `cur`: `null` leaves it as it is, a JSON string is
stored as `unquote` reads it (U+FFFD for an unpaired surrogate escape), anything else is an
error. An element of a slice starts at the zero value `""`. -/
def decodeString (cur : String) : JSON → Option String
  | .null => some cur
  | j => j.unquoted?

/-- Decode into a `*string`: `null` gives the nil pointer, a JSON string a pointer to the
string as `unquote` reads it (U+FFFD for an unpaired surrogate escape). -/
def decodePtrString : JSON → Option (Option String)
  | .null => some none
  | j => j.unquoted?.map some

/-- Decode into a `bool`: `null` leaves the zero value. -/
def decodeBool : JSON → Option Bool
  | .null => some false
  | .bool b => some b
  | _ => none

/-- Decode into a `*bool` tagged `string`: the value must be `null` or a JSON string that
holds `true`, `false` or `null`. -/
def decodePtrBoolString : JSON → Option (Option Bool)
  | .null => some none
  | j =>
    match j.unquoted? with
    | some s =>
      if s = "true" then some (some true)
      else if s = "false" then some (some false)
      else if s = "null" then some none
      else none
    | none => none

/-- Decode the elements of an array one by one; one failure fails the whole. -/
def decodeList {α : Type} (dec : JSON → Option α) : List JSON → Option (List α)
  | [] => some []
  | j :: rest =>
    match dec j, decodeList dec rest with
    | some a, some as => some (a :: as)
    | _, _ => none

/-- Decode into a slice: `null` gives the nil slice, an array (also the empty one) a non-nil
slice, anything else is an error. The slice is built afresh. For a member that repeats an
earlier name Go instead decodes into the slice already stored and reuses its elements; that
case is not followed here and lies outside every statement below, which all require distinct
member names. -/
def decodeSlice {α : Type} (dec : JSON → Option α) : JSON → Option (Option (List α))
  | .null => some none
  | .arr items => (decodeList dec items).map some
  | _ => none

/-- Decode into a pointer to a struct: `null` gives the nil pointer. -/
def decodePtr {α : Type} (dec : JSON → Option α) : JSON → Option (Option α)
  | .null => some none
  | j => (dec j).map some

/-- Go's `m[k] = b` on a map kept as an association list. -/
def mapInsert (k : String) (b : Bool) : List (String × Bool) → List (String × Bool)
  | [] => [(k, b)]
  | e :: rest => if e.1 = k then (k, b) :: rest else e :: mapInsert k b rest

/-- Store the members of an object into a `map[string]bool`, in reading order. -/
def decodeMapMembers : List (String × JSON) → List (String × Bool) →
    Option (List (String × Bool))
  | [], m => some m
  | (k, v) :: rest, m =>
    match decodeBool v with
    | none => none
    | some b => decodeMapMembers rest (mapInsert k b m)

/-- Decode into a `map[string]bool`: `null` gives the nil map, an object a non-nil map. The
map is built afresh. For a member that repeats an earlier name Go instead adds to the map
already stored; that case is not followed here and lies outside every statement below, which
all require distinct member names. -/
def decodeMapStringBool : JSON → Option (Option (List (String × Bool)))
  | .null => some none
  | .obj members => (decodeMapMembers members []).map some
  | _ => none

/-- Store the members of an object into a struct, in reading order. `set key v r` stores one
member and is `none` when the value does not fit the field. -/
def decodeMembers {α : Type} (set : String → JSON → α → Option α) :
    List (String × JSON) → α → Option α
  | [], r => some r
  | (k, v) :: rest, r =>
    match set k v r with
    | none => none
    | some r' => decodeMembers set rest r'

/-- Decode into a struct that starts at `zero`: `null` leaves it as it is, an object stores its
members, anything else is an error. -/
def decodeStruct {α : Type} (zero : α) (set : String → JSON → α → Option α) :
    JSON → Option α
  | .null => some zero
  | .obj members => decodeMembers set members zero
  | _ => none

/-- Store one member into a `servicePD`. A key that selects no field is ignored. -/
def servicePD.setField (key : String) (v : JSON) (r : servicePD) : Option servicePD :=
  if sameField key "service_name" then
    (decodePtrString v).map fun p => { r with ServiceName := p }
  else if sameField key "service_key" then
    (decodePtrString v).map fun p => { r with ServiceKey := p }
  else some r

/-- Decoding of `servicePD`. -/
def servicePD.unmarshal : JSON → Option servicePD :=
  decodeStruct ⟨none, none⟩ servicePD.setField

/-- Store one member into an `integrationPD`. -/
def integrationPD.setField (key : String) (v : JSON) (r : integrationPD) :
    Option integrationPD :=
  if sameField key "services" then
    (decodeSlice servicePD.unmarshal v).map fun p => { r with Services := p }
  else if sameField key "subdomain" then
    (decodePtrString v).map fun p => { r with Subdomain := p }
  else if sameField key "schedules" then
    (decodeSlice (decodeString "") v).map fun p => { r with Schedules := p }
  else if sameField key "api_token" then
    (decodePtrString v).map fun p => { r with APIToken := p }
  else some r

/-- Decoding of `integrationPD`. -/
def integrationPD.unmarshal : JSON → Option integrationPD :=
  decodeStruct ⟨none, none, none, none⟩ integrationPD.setField

/-- Store one member into a `ServicePDRequest`. -/
def ServicePDRequest.setField (key : String) (v : JSON) (r : ServicePDRequest) :
    Option ServicePDRequest :=
  if sameField key "service_name" then
    (decodePtrString v).map fun p => { r with ServiceName := p }
  else if sameField key "service_key" then
    (decodePtrString v).map fun p => { r with ServiceKey := p }
  else some r

/-- Decoding of `ServicePDRequest`. -/
def ServicePDRequest.unmarshal : JSON → Option ServicePDRequest :=
  decodeStruct ⟨none, none⟩ ServicePDRequest.setField

/-- Store one member into a `ServiceHookSlackRequest`. -/
def ServiceHookSlackRequest.setField (key : String) (v : JSON) (r : ServiceHookSlackRequest) :
    Option ServiceHookSlackRequest :=
  if sameField key "account" then
    (decodePtrString v).map fun p => { r with Account := p }
  else if sameField key "url" then
    (decodePtrString v).map fun p => { r with Url := p }
  else some r

/-- Decoding of `ServiceHookSlackRequest`. -/
def ServiceHookSlackRequest.unmarshal : JSON → Option ServiceHookSlackRequest :=
  decodeStruct ⟨none, none⟩ ServiceHookSlackRequest.setField

/-- Store one member into a `ChannelSlackRequest`. -/
def ChannelSlackRequest.setField (key : String) (v : JSON) (r : ChannelSlackRequest) :
    Option ChannelSlackRequest :=
  if sameField key "channel_name" then
    (decodePtrString v).map fun p => { r with ChannelName := p }
  else if sameField key "transfer_all_user_comments" then
    (decodePtrBoolString v).map fun p => { r with TransferAllUserComments := p }
  else if sameField key "account" then
    (decodePtrString v).map fun p => { r with Account := p }
  else some r

/-- Decoding of `ChannelSlackRequest`. -/
def ChannelSlackRequest.unmarshal : JSON → Option ChannelSlackRequest :=
  decodeStruct ⟨none, none, none⟩ ChannelSlackRequest.setField

/-- Store one member into an `IntegrationSlackRequest`. -/
def IntegrationSlackRequest.setField (key : String) (v : JSON) (r : IntegrationSlackRequest) :
    Option IntegrationSlackRequest :=
  if sameField key "service_hooks" then
    (decodeSlice ServiceHookSlackRequest.unmarshal v).map fun p => { r with ServiceHooks := p }
  else if sameField key "channels" then
    (decodeSlice ChannelSlackRequest.unmarshal v).map fun p => { r with Channels := p }
  else if sameField key "run_check" then
    (decodePtrBoolString v).map fun p => { r with RunCheck := p }
  else some r

/-- Decoding of `IntegrationSlackRequest`. -/
def IntegrationSlackRequest.unmarshal : JSON → Option IntegrationSlackRequest :=
  decodeStruct ⟨none, none, none⟩ IntegrationSlackRequest.setField

/-- Store one member into an `IntegrationAWSAccount`. -/
def IntegrationAWSAccount.setField (key : String) (v : JSON) (r : IntegrationAWSAccount) :
    Option IntegrationAWSAccount :=
  if sameField key "account_id" then
    (decodePtrString v).map fun p => { r with AccountID := p }
  else if sameField key "role_name" then
    (decodePtrString v).map fun p => { r with RoleName := p }
  else if sameField key "filter_tags" then
    (decodeSlice (decodeString "") v).map fun p => { r with FilterTags := p }
  else if sameField key "host_tags" then
    (decodeSlice (decodeString "") v).map fun p => { r with HostTags := p }
  else if sameField key "account_specific_namespace_rules" then
    (decodeMapStringBool v).map fun p => { r with AccountSpecificNamespaceRules := p }
  else some r

/-- Decoding of `IntegrationAWSAccount`. -/
def IntegrationAWSAccount.unmarshal : JSON → Option IntegrationAWSAccount :=
  decodeStruct ⟨none, none, none, none, none⟩ IntegrationAWSAccount.setField

/-- Store one member into an `IntegrationAWSAccountCreateResponse`. -/
def IntegrationAWSAccountCreateResponse.setField (key : String) (v : JSON)
    (r : IntegrationAWSAccountCreateResponse) : Option IntegrationAWSAccountCreateResponse :=
  if sameField key "external_id" then
    (decodeString r.ExternalID v).map fun s => { r with ExternalID := s }
  else some r

/-- Decoding of `IntegrationAWSAccountCreateResponse`. -/
def IntegrationAWSAccountCreateResponse.unmarshal :
    JSON → Option IntegrationAWSAccountCreateResponse :=
  decodeStruct ⟨""⟩ IntegrationAWSAccountCreateResponse.setField

/-- Store one member into an `IntegrationAWSAccountGetResponse`. -/
def IntegrationAWSAccountGetResponse.setField (key : String) (v : JSON)
    (r : IntegrationAWSAccountGetResponse) : Option IntegrationAWSAccountGetResponse :=
  if sameField key "accounts" then
    (decodeSlice IntegrationAWSAccount.unmarshal v).map fun p => { r with Accounts := p }
  else some r

/-- Decoding of `IntegrationAWSAccountGetResponse`. -/
def IntegrationAWSAccountGetResponse.unmarshal :
    JSON → Option IntegrationAWSAccountGetResponse :=
  decodeStruct ⟨none⟩ IntegrationAWSAccountGetResponse.setField

/-- Store one member into an `IntegrationAWSLambdaARN`. -/
def IntegrationAWSLambdaARN.setField (key : String) (v : JSON) (r : IntegrationAWSLambdaARN) :
    Option IntegrationAWSLambdaARN :=
  if sameField key "arn" then
    (decodePtrString v).map fun p => { r with LambdaARN := p }
  else some r

/-- Decoding of `IntegrationAWSLambdaARN`. -/
def IntegrationAWSLambdaARN.unmarshal : JSON → Option IntegrationAWSLambdaARN :=
  decodeStruct ⟨none⟩ IntegrationAWSLambdaARN.setField

/-- Store one member into an `IntegrationAWSLogCollection`. -/
def IntegrationAWSLogCollection.setField (key : String) (v : JSON)
    (r : IntegrationAWSLogCollection) : Option IntegrationAWSLogCollection :=
  if sameField key "account_id" then
    (decodePtrString v).map fun p => { r with AccountID := p }
  else if sameField key "lambdas" then
    (decodeSlice IntegrationAWSLambdaARN.unmarshal v).map fun p => { r with LambdaARNs := p }
  else if sameField key "services" then
    (decodeSlice (decodeString "") v).map fun p => { r with Services := p }
  else some r

/-- Decoding of `IntegrationAWSLogCollection`. -/
def IntegrationAWSLogCollection.unmarshal : JSON → Option IntegrationAWSLogCollection :=
  decodeStruct ⟨none, none, none⟩ IntegrationAWSLogCollection.setField

/-- Store one member into an `IntegrationGCP`. -/
def IntegrationGCP.setField (key : String) (v : JSON) (r : IntegrationGCP) :
    Option IntegrationGCP :=
  if sameField key "project_id" then
    (decodePtrString v).map fun p => { r with ProjectID := p }
  else if sameField key "client_email" then
    (decodePtrString v).map fun p => { r with ClientEmail := p }
  else if sameField key "host_filters" then
    (decodePtrString v).map fun p => { r with HostFilters := p }
  else some r

/-- Decoding of `IntegrationGCP`. -/
def IntegrationGCP.unmarshal : JSON → Option IntegrationGCP :=
  decodeStruct ⟨none, none, none⟩ IntegrationGCP.setField

/-- Go's `json.Unmarshal(body, out)` for the variable behind `out`. With a nil `out` nothing is
decoded. -/
def Out.unmarshal : (o : Out) → JSON → Option o.Val
  | .nil => fun _ => some ()
  | .integrationPD => integrationPD.unmarshal
  | .ServicePDRequest => ServicePDRequest.unmarshal
  | .IntegrationSlackRequest => IntegrationSlackRequest.unmarshal
  | .IntegrationAWSAccountCreateResponse => IntegrationAWSAccountCreateResponse.unmarshal
  | .IntegrationAWSAccountGetResponse => IntegrationAWSAccountGetResponse.unmarshal
  | .IntegrationAWSLogCollections => decodeSlice IntegrationAWSLogCollection.unmarshal
  | .IntegrationGCPs => decodeSlice (decodePtr IntegrationGCP.unmarshal)

/-- Go's `json.Marshal` of the value behind `out`. -/
def Out.marshal : (o : Out) → o.Val → JSON
  | .nil => fun _ => .null
  | .integrationPD => integrationPD.marshal
  | .ServicePDRequest => ServicePDRequest.marshal
  | .IntegrationSlackRequest => IntegrationSlackRequest.marshal
  | .IntegrationAWSAccountCreateResponse => IntegrationAWSAccountCreateResponse.marshal
  | .IntegrationAWSAccountGetResponse => IntegrationAWSAccountGetResponse.marshal
  | .IntegrationAWSLogCollections => fun v =>
    (GoValue.slice (encodeItems IntegrationAWSLogCollection.marshal v)).encode
  | .IntegrationGCPs => fun v =>
    (GoValue.slice (encodeItems (encodePtr IntegrationGCP.marshal) v)).encode

/-- Decode a response body into the variable behind `out` and encode the decoded value
again. -/
def Out.roundTrip (o : Out) (body : JSON) : Option JSON := (o.unmarshal body).map o.marshal

/-! ## Schemas and preserved fields -/

namespace JSON

mutual

/-- Every field present in `body` is present again in `out` with the same value. Scalars must
be equal, strings piece by piece, arrays must have the same length with each element
preserved, and every member of an object must be found in `out` under its name with its
value preserved. Members that only `out` has do not matter. -/
def preserved : JSON → JSON → Bool
  | null, null => true
  | bool a, bool b => a == b
  | num a, num b => a == b
  | str a, str b => a == b
  | str a, rawStr q => a.data.map Piece.char == q
  | rawStr p, str b => p == b.data.map Piece.char
  | rawStr p, rawStr q => p == q
  | arr xs, arr ys => preservedList xs ys
  | obj members, obj members' => preservedMembers members members'
  | _, _ => false

/-- The arrays have the same length and each element is preserved. -/
def preservedList : List JSON → List JSON → Bool
  | [], [] => true
  | x :: xs, y :: ys => preserved x y && preservedList xs ys
  | _, _ => false

/-- Every member of the first list is found in the second with its value preserved. -/
def preservedMembers : List (String × JSON) → List (String × JSON) → Bool
  | [], _ => true
  | (k, v) :: rest, members' =>
    (match lookup k members' with
      | some v' => preserved v v'
      | none => false) && preservedMembers rest members'

end

mutual

/-- Every string value of the document is a sequence of Unicode characters: no string holds an
unpaired surrogate escape. Member names are Unicode strings by the type of `obj`. -/
def validStrings : JSON → Bool
  | rawStr ps => ps.all Piece.isChar
  | arr items => validList items
  | obj members => validMembers members
  | _ => true

/-- Every element has valid strings. -/
def validList : List JSON → Bool
  | [] => true
  | x :: xs => validStrings x && validList xs

/-- Every member value has valid strings. -/
def validMembers : List (String × JSON) → Bool
  | [] => true
  | (_, v) :: rest => validStrings v && validMembers rest

end

end JSON

/-- No two members of the object have the same name. -/
def distinctKeys : List (String × JSON) → Bool
  | [] => true
  | (k, _) :: rest => !(rest.any fun m => m.1 == k) && distinctKeys rest

/-- The schema of a field of a struct: the member name and what its value must look like. -/
abbrev FieldSchema := String × (JSON → Bool)

/-- The schema a member name stands for in a list of field schemas. -/
def schemaOf (k : String) : List FieldSchema → Option (JSON → Bool)
  | [] => none
  | (name, s) :: rest => if name = k then some s else schemaOf k rest

namespace Schema

/-- A JSON string, for a `string` field. -/
def string (j : JSON) : Bool := j.pieces?.isSome

/-- A JSON string or `null`, for a `*string` field. -/
def ptrString : JSON → Bool
  | .null => true
  | j => string j

/-- A JSON boolean, for a `bool`. -/
def bool : JSON → Bool
  | .bool _ => true
  | _ => false

/-- A boolean written inside a JSON string, for a `*bool` field tagged `string`. -/
def quotedBool (j : JSON) : Bool :=
  j.pieces? == some ("true".data.map Piece.char) ||
    j.pieces? == some ("false".data.map Piece.char)

/-- A boolean written inside a JSON string, or `null`. -/
def ptrQuotedBool : JSON → Bool
  | .null => true
  | j => quotedBool j

/-- An array of elements of the given schema, or `null`, for a slice. -/
def slice (elem : JSON → Bool) : JSON → Bool
  | .null => true
  | .arr items => items.all elem
  | _ => false

/-- An array with at least one element, all of the given schema. -/
def nonEmptySlice (elem : JSON → Bool) : JSON → Bool
  | .arr (item :: items) => elem item && items.all elem
  | _ => false

/-- A value of the given schema, or `null`, for a pointer. -/
def ptr (elem : JSON → Bool) : JSON → Bool
  | .null => true
  | j => elem j

/-- An object with distinct names and boolean values, or `null`, for a `map[string]bool`. -/
def mapStringBool : JSON → Bool
  | .null => true
  | .obj members => distinctKeys members && members.all fun m => bool m.2
  | _ => false

/-- An object with distinct names, each the tag name of a field and with a value of the
schema of that field. A field may be missing. -/
def struct (fields : List FieldSchema) : JSON → Bool
  | .obj members =>
    distinctKeys members &&
      members.all fun m =>
        match schemaOf m.1 fields with
        | some s => s m.2
        | none => false
  | _ => false

end Schema

/-- Schema of `servicePD`. -/
def servicePD.schema : JSON → Bool :=
  Schema.struct [("service_name", Schema.ptrString), ("service_key", Schema.ptrString)]

/-- Schema of `integrationPD`. -/
def integrationPD.schema : JSON → Bool :=
  Schema.struct
    [("services", Schema.slice servicePD.schema), ("subdomain", Schema.ptrString),
      ("schedules", Schema.slice Schema.string), ("api_token", Schema.ptrString)]

/-- Schema of `ServicePDRequest`. -/
def ServicePDRequest.schema : JSON → Bool :=
  Schema.struct [("service_name", Schema.ptrString), ("service_key", Schema.ptrString)]

/-- Schema of `ServiceHookSlackRequest`. -/
def ServiceHookSlackRequest.schema : JSON → Bool :=
  Schema.struct [("account", Schema.ptrString), ("url", Schema.ptrString)]

/-- Schema of `ChannelSlackRequest`. -/
def ChannelSlackRequest.schema : JSON → Bool :=
  Schema.struct
    [("channel_name", Schema.ptrString),
      ("transfer_all_user_comments", Schema.ptrQuotedBool), ("account", Schema.ptrString)]

/-- Schema of `IntegrationSlackRequest`. -/
def IntegrationSlackRequest.schema : JSON → Bool :=
  Schema.struct
    [("service_hooks", Schema.slice ServiceHookSlackRequest.schema),
      ("channels", Schema.slice ChannelSlackRequest.schema),
      ("run_check", Schema.ptrQuotedBool)]

/-- Schema of a `ChannelSlackRequest` whose `omitempty` field, when present, is not `null`. -/
def ChannelSlackRequest.schemaSet : JSON → Bool :=
  Schema.struct
    [("channel_name", Schema.ptrString),
      ("transfer_all_user_comments", Schema.quotedBool), ("account", Schema.ptrString)]

/-- Schema of an `IntegrationSlackRequest` in which no `omitempty` field that is present is
`null` or an empty list, at the top and in the channels. -/
def IntegrationSlackRequest.schemaSet : JSON → Bool :=
  Schema.struct
    [("service_hooks", Schema.nonEmptySlice ServiceHookSlackRequest.schema),
      ("channels", Schema.nonEmptySlice ChannelSlackRequest.schemaSet),
      ("run_check", Schema.quotedBool)]

/-- Schema of `IntegrationAWSAccount`. -/
def IntegrationAWSAccount.schema : JSON → Bool :=
  Schema.struct
    [("account_id", Schema.ptrString), ("role_name", Schema.ptrString),
      ("filter_tags", Schema.slice Schema.string), ("host_tags", Schema.slice Schema.string),
      ("account_specific_namespace_rules", Schema.mapStringBool)]

/-- Schema of `IntegrationAWSAccountCreateResponse`. -/
def IntegrationAWSAccountCreateResponse.schema : JSON → Bool :=
  Schema.struct [("external_id", Schema.string)]

/-- Schema of `IntegrationAWSAccountGetResponse`. -/
def IntegrationAWSAccountGetResponse.schema : JSON → Bool :=
  Schema.struct [("accounts", Schema.slice IntegrationAWSAccount.schema)]

/-- Schema of `IntegrationAWSLambdaARN`. -/
def IntegrationAWSLambdaARN.schema : JSON → Bool :=
  Schema.struct [("arn", Schema.ptrString)]

/-- Schema of `IntegrationAWSLogCollection`. -/
def IntegrationAWSLogCollection.schema : JSON → Bool :=
  Schema.struct
    [("account_id", Schema.ptrString),
      ("lambdas", Schema.slice IntegrationAWSLambdaARN.schema),
      ("services", Schema.slice Schema.string)]

/-- Schema of `IntegrationGCP`. -/
def IntegrationGCP.schema : JSON → Bool :=
  Schema.struct
    [("project_id", Schema.ptrString), ("client_email", Schema.ptrString),
      ("host_filters", Schema.ptrString)]

/-- The response body matches the schema of the type behind `out`. -/
def Out.schema : Out → JSON → Bool
  | .nil => fun _ => false
  | .integrationPD => integrationPD.schema
  | .ServicePDRequest => ServicePDRequest.schema
  | .IntegrationSlackRequest => IntegrationSlackRequest.schema
  | .IntegrationAWSAccountCreateResponse => IntegrationAWSAccountCreateResponse.schema
  | .IntegrationAWSAccountGetResponse => IntegrationAWSAccountGetResponse.schema
  | .IntegrationAWSLogCollections => Schema.slice IntegrationAWSLogCollection.schema
  | .IntegrationGCPs => Schema.slice (Schema.ptr IntegrationGCP.schema)

/-- The schema of the type behind `out`, narrowed for `IntegrationSlackRequest` to the bodies
in which no `omitempty` field that is present is `null` or an empty list. -/
def Out.schemaSet : Out → JSON → Bool
  | .IntegrationSlackRequest => IntegrationSlackRequest.schemaSet
  | o => o.schema

/-- Storing a member named `k` whose value matches the schema `s` and has valid strings
succeeds, the stored value is written back under `k` with every field of the member
preserved, and no other member of the written object changes. -/
def StoresField {α : Type} (marshal : α → JSON) (set : String → JSON → α → Option α)
    (k : String) (s : JSON → Bool) : Prop :=
  ∀ (v : JSON) (r : α), s v = true → v.validStrings = true →
    ∃ r', set k v r = some r' ∧
      (∃ j, (marshal r').get? k = some j ∧ JSON.preserved v j = true) ∧
      ∀ n, n ≠ k → (marshal r').get? n = (marshal r).get? n

/-! ## Theorems -/

/-! ### Query escaping -/

theorem shouldEscape_unreserved (c : Char) (h : isUnreserved c = true) :
    shouldEscape c = false := by
  simp only [isUnreserved, Char.isAlpha, Char.isUpper, Char.isLower, Char.isDigit,
    Bool.or_eq_true, Bool.and_eq_true, decide_eq_true_eq, beq_iff_eq] at h
  unfold shouldEscape
  rcases h with ((((h | h) | h) | h) | h) | h
  · rw [if_pos]
    rcases h with h | h
    · exact Or.inr (Or.inl ⟨h.1, h.2⟩)
    · exact Or.inl ⟨h.1, h.2⟩
  · rw [if_pos]
    exact Or.inr (Or.inr ⟨h.1, h.2⟩)
  all_goals subst h; decide

theorem unreserved_ne_space (c : Char) (h : isUnreserved c = true) : c ≠ ' ' := by
  rintro rfl
  revert h
  decide

theorem escapeChar_unreserved (c : Char) (h : isUnreserved c = true) : escapeChar c = [c] := by
  simp [escapeChar, unreserved_ne_space c h, shouldEscape_unreserved c h]

theorem flatMap_escapeChar_unreserved (l : List Char) (h : ∀ c ∈ l, isUnreserved c = true) :
    l.flatMap escapeChar = l := by
  induction l with
  | nil => rfl
  | cons c cs ih =>
    simp only [List.flatMap_cons]
    rw [escapeChar_unreserved c (h c (List.mem_cons_self _ _)),
      ih (fun d hd => h d (List.mem_cons_of_mem _ hd))]
    rfl

theorem QueryEscape_unreserved (s : String) (h : ∀ c ∈ s.data, isUnreserved c = true) :
    QueryEscape s = s := by
  unfold QueryEscape
  rw [flatMap_escapeChar_unreserved s.data h]

theorem encode_account_role (a r : String) :
    "/v1/integration/aws?" ++
        Values.Encode (Values.Add (Values.Set [] "account_id" a) "role_name" r) =
      "/v1/integration/aws?account_id=" ++ QueryEscape a ++ "&role_name=" ++ QueryEscape r := by
  have h1 : QueryEscape "account_id" = "account_id" := by decide
  have h2 : QueryEscape "role_name" = "role_name" := by decide
  have h3 : sortByKey [("account_id", [a]), ("role_name", [r])] =
      [("account_id", [a]), ("role_name", [r])] := by
    simp [sortByKey, insertByKey]
    decide
  simp [Values.Encode, Values.Set, Values.Add, h3, Values.writeKeys, Values.writeKey, h1, h2]
  rw [if_pos (Or.inl (by decide))]
  apply String.ext
  simp [String.data_append]

/-! ### The templated bindings -/

/-- C1. For every service object whose ServiceName is set to `n`, `UpdateIntegrationPDService`
returns after exactly one executor call, made with method PUT and path
`/v1/integration/pagerduty/configuration/services/` followed by `n`. The value passed as
request body is serialized as `{"service_key": k}` when ServiceKey is set to `k` and as `{}`
when it is unset, and so has no `service_name` key. -/
theorem UpdateIntegrationPDService_request {ε : Type} (client : Executor ε)
    (serviceObject : ServicePDRequest) (n : String)
    (h : serviceObject.ServiceName = some n) :
    ∃ c : Call,
      (UpdateIntegrationPDService client (some serviceObject)).calls = [c] ∧
      (UpdateIntegrationPDService client (some serviceObject)).panicked = false ∧
      c.method = "PUT" ∧
      c.api = "/v1/integration/pagerduty/configuration/services/" ++ n ∧
      c.reqbody.marshal = serviceKeyObject serviceObject.ServiceKey ∧
      (serviceKeyObject serviceObject.ServiceKey).hasKey "service_name" = false := by
  obtain ⟨name, key⟩ := serviceObject
  simp only at h
  subst h
  refine ⟨⟨"PUT", "/v1/integration/pagerduty/configuration/services/" ++ n,
    .serviceKey ⟨key⟩, .nil⟩, ?_⟩
  cases key <;>
    simp [UpdateIntegrationPDService, deref, doJsonRequest, bind, Go.bind, pure, Go.calls,
      Go.panicked, Payload.marshal, ServiceKeyBody.marshal, ServiceKeyBody.fields,
      encodeStruct, encodeFields, Field.omitting, Field.skipped, GoValue.isEmptyValue,
      GoValue.encode, serviceKeyObject, JSON.hasKey, JSON.get?, JSON.lookup]

/-- The example of the specification for C1: `serviceName="svc1"`, `serviceKey="key1"` sends
the body `{"service_key":"key1"}` to `/v1/integration/pagerduty/configuration/services/svc1`. -/
theorem UpdateIntegrationPDService_request_svc1 :
    ∃ c : Call,
      (UpdateIntegrationPDService idleExecutor (some ⟨some "svc1", some "key1"⟩)).calls
        = [c] ∧
      (UpdateIntegrationPDService idleExecutor (some ⟨some "svc1", some "key1"⟩)).panicked
        = false ∧
      c.method = "PUT" ∧
      c.api = "/v1/integration/pagerduty/configuration/services/svc1" ∧
      c.reqbody.marshal = .obj [("service_key", .str "key1")] ∧
      (JSON.obj [("service_key", .str "key1")]).hasKey "service_name" = false :=
  UpdateIntegrationPDService_request idleExecutor ⟨some "svc1", some "key1"⟩ "svc1" rfl

/-- C2. For every AWS account record whose AccountID is set to `a` and RoleName is set to `r`,
`UpdateIntegrationAWS` returns after exactly one executor call, made with method PUT and path
`/v1/integration/aws?account_id=` esc(a) `&role_name=` esc(r), account_id before role_name,
where esc is `url.QueryEscape`; and esc is the identity on every string of unreserved
characters. -/
theorem UpdateIntegrationAWS_request {ε : Type} (client : Executor ε)
    (awsAccount : IntegrationAWSAccount) (a r : String)
    (ha : awsAccount.AccountID = some a) (hr : awsAccount.RoleName = some r) :
    (∃ c : Call,
      (UpdateIntegrationAWS client (some awsAccount)).calls = [c] ∧
      (UpdateIntegrationAWS client (some awsAccount)).panicked = false ∧
      c.method = "PUT" ∧
      c.api = "/v1/integration/aws?account_id=" ++ QueryEscape a ++ "&role_name=" ++
        QueryEscape r) ∧
    (∀ s : String, (∀ ch ∈ s.data, isUnreserved ch = true) → QueryEscape s = s) := by
  refine ⟨?_, QueryEscape_unreserved⟩
  obtain ⟨id, role, ft, ht, rules⟩ := awsAccount
  simp only at ha hr
  subst ha hr
  refine ⟨⟨"PUT", "/v1/integration/aws?account_id=" ++ QueryEscape a ++ "&role_name=" ++
    QueryEscape r, .awsAccount (some ⟨some a, some r, ft, ht, rules⟩), .nil⟩, ?_⟩
  simp only [UpdateIntegrationAWS, deref, doJsonRequest, bind, Go.bind, pure, Go.calls,
    Go.panicked, List.append_nil, List.nil_append, encode_account_role, and_self]

/-- The example of the specification for C2: `accountID="123"`, `roleName="r"` gives the query
string `account_id=123&role_name=r` on a PUT to `/v1/integration/aws`. -/
theorem UpdateIntegrationAWS_request_123 :
    (∃ c : Call,
      (UpdateIntegrationAWS idleExecutor (some ⟨some "123", some "r", none, none, none⟩)).calls
        = [c] ∧
      (UpdateIntegrationAWS idleExecutor
        (some ⟨some "123", some "r", none, none, none⟩)).panicked = false ∧
      c.method = "PUT" ∧
      c.api = "/v1/integration/aws?account_id=123&role_name=r") ∧
    (∀ s : String, (∀ ch ∈ s.data, isUnreserved ch = true) → QueryEscape s = s) :=
  UpdateIntegrationAWS_request idleExecutor ⟨some "123", some "r", none, none, none⟩ "123" "r"
    rfl rfl

/-! ### Runs of the result-returning bindings -/

theorem GetIntegrationPD_run {ε : Type} (client : Executor ε) :
    GetIntegrationPD client =
      .ret [⟨"GET", "/v1/integration/pagerduty", .nil, .integrationPD⟩]
        (match (client ⟨"GET", "/v1/integration/pagerduty", .nil, .integrationPD⟩).2 with
         | some e => (none, some e)
         | none =>
           (some (client ⟨"GET", "/v1/integration/pagerduty", .nil, .integrationPD⟩).1,
             none)) := by
  simp only [GetIntegrationPD, doJsonRequest, bind, Go.bind, pure]
  rcases client ⟨"GET", "/v1/integration/pagerduty", .nil, .integrationPD⟩
    with ⟨out, _ | e⟩ <;> rfl

theorem GetIntegrationPDService_run {ε : Type} (client : Executor ε) (s : String) :
    GetIntegrationPDService client s =
      .ret [⟨"GET", "/v1/integration/pagerduty/configuration/services/" ++ s, .nil,
          .ServicePDRequest⟩]
        (match (client ⟨"GET", "/v1/integration/pagerduty/configuration/services/" ++ s, .nil,
            .ServicePDRequest⟩).2 with
         | some e => (none, some e)
         | none =>
           (some (client ⟨"GET", "/v1/integration/pagerduty/configuration/services/" ++ s,
             .nil, .ServicePDRequest⟩).1, none)) := by
  simp only [GetIntegrationPDService, doJsonRequest, bind, Go.bind, pure]
  rcases client ⟨"GET", "/v1/integration/pagerduty/configuration/services/" ++ s, .nil,
    .ServicePDRequest⟩ with ⟨out, _ | e⟩ <;> rfl

theorem GetIntegrationSlack_run {ε : Type} (client : Executor ε) :
    GetIntegrationSlack client =
      .ret [⟨"GET", "/v1/integration/slack", .nil, .IntegrationSlackRequest⟩]
        (match (client ⟨"GET", "/v1/integration/slack", .nil, .IntegrationSlackRequest⟩).2 with
         | some e => (none, some e)
         | none =>
           (some (client ⟨"GET", "/v1/integration/slack", .nil, .IntegrationSlackRequest⟩).1,
             none)) := by
  simp only [GetIntegrationSlack, doJsonRequest, bind, Go.bind, pure]
  rcases client ⟨"GET", "/v1/integration/slack", .nil, .IntegrationSlackRequest⟩
    with ⟨out, _ | e⟩ <;> rfl

theorem CreateIntegrationAWS_run {ε : Type} (client : Executor ε)
    (p : Option IntegrationAWSAccount) :
    CreateIntegrationAWS client p =
      .ret [⟨"POST", "/v1/integration/aws", .awsAccount p,
          .IntegrationAWSAccountCreateResponse⟩]
        (match (client ⟨"POST", "/v1/integration/aws", .awsAccount p,
            .IntegrationAWSAccountCreateResponse⟩).2 with
         | some e => (none, some e)
         | none =>
           (some (client ⟨"POST", "/v1/integration/aws", .awsAccount p,
             .IntegrationAWSAccountCreateResponse⟩).1, none)) := by
  simp only [CreateIntegrationAWS, doJsonRequest, bind, Go.bind, pure]
  rcases client ⟨"POST", "/v1/integration/aws", .awsAccount p,
    .IntegrationAWSAccountCreateResponse⟩ with ⟨out, _ | e⟩ <;> rfl

theorem GetIntegrationAWS_run {ε : Type} (client : Executor ε) :
    GetIntegrationAWS client =
      .ret [⟨"GET", "/v1/integration/aws", .nil, .IntegrationAWSAccountGetResponse⟩]
        (match (client ⟨"GET", "/v1/integration/aws", .nil,
            .IntegrationAWSAccountGetResponse⟩).2 with
         | some e => (none, some e)
         | none =>
           (some (client ⟨"GET", "/v1/integration/aws", .nil,
             .IntegrationAWSAccountGetResponse⟩).1.Accounts, none)) := by
  simp only [GetIntegrationAWS, doJsonRequest, bind, Go.bind, pure]
  rcases client ⟨"GET", "/v1/integration/aws", .nil, .IntegrationAWSAccountGetResponse⟩
    with ⟨out, _ | e⟩ <;> rfl

theorem GetIntegrationAWSLogCollection_run {ε : Type} (client : Executor ε) :
    GetIntegrationAWSLogCollection client =
      .ret [⟨"GET", "/v1/integration/aws/logs", .nil, .IntegrationAWSLogCollections⟩]
        (match (client ⟨"GET", "/v1/integration/aws/logs", .nil,
            .IntegrationAWSLogCollections⟩).2 with
         | some e => (none, some e)
         | none =>
           (some (client ⟨"GET", "/v1/integration/aws/logs", .nil,
             .IntegrationAWSLogCollections⟩).1, none)) := by
  simp only [GetIntegrationAWSLogCollection, doJsonRequest, bind, Go.bind, pure]
  rcases client ⟨"GET", "/v1/integration/aws/logs", .nil, .IntegrationAWSLogCollections⟩
    with ⟨out, _ | e⟩ <;> rfl

theorem ListIntegrationGCP_run {ε : Type} (client : Executor ε) :
    ListIntegrationGCP client =
      .ret [⟨"GET", "/v1/integration/gcp", .nil, .IntegrationGCPs⟩]
        (match (client ⟨"GET", "/v1/integration/gcp", .nil, .IntegrationGCPs⟩).2 with
         | some e => (none, some e)
         | none => ((client ⟨"GET", "/v1/integration/gcp", .nil, .IntegrationGCPs⟩).1,
             none)) := by
  simp only [ListIntegrationGCP, doJsonRequest, bind, Go.bind, pure]
  rcases client ⟨"GET", "/v1/integration/gcp", .nil, .IntegrationGCPs⟩
    with ⟨out, _ | e⟩ <;> rfl

theorem propagates_of_match {α β ε : Type} (calls : List Call) (outcome : α × Option ε)
    (value : α → Option β) :
    Go.propagates
      (.ret calls (match outcome.2 with
        | some e => (none, some e)
        | none => (value outcome.1, none)))
      outcome value := by
  constructor
  · intro e he
    rw [he]
    rfl
  · intro he
    rw [he]
    rfl

/-! ### The bindings with a literal path -/

/-- C3. Every binding whose path has no runtime part returns after exactly one executor call,
made with the literal method and path of its row in the endpoint table, for every argument. -/
theorem literal_bindings_call_once {ε : Type} (client : Executor ε) :
    (∀ p, (CreateIntegrationPD client p).callsOnce "PUT" "/v1/integration/pagerduty" = true) ∧
    (∀ p, (UpdateIntegrationPD client p).callsOnce "PUT" "/v1/integration/pagerduty" = true) ∧
    (GetIntegrationPD client).callsOnce "GET" "/v1/integration/pagerduty" = true ∧
    (DeleteIntegrationPD client).callsOnce "DELETE" "/v1/integration/pagerduty" = true ∧
    (∀ p, (CreateIntegrationPDService client p).callsOnce "POST"
      "/v1/integration/pagerduty/configuration/services" = true) ∧
    (∀ p, (CreateIntegrationSlack client p).callsOnce "POST" "/v1/integration/slack" = true) ∧
    (∀ p, (UpdateIntegrationSlack client p).callsOnce "PUT" "/v1/integration/slack" = true) ∧
    (GetIntegrationSlack client).callsOnce "GET" "/v1/integration/slack" = true ∧
    (DeleteIntegrationSlack client).callsOnce "DELETE" "/v1/integration/slack" = true ∧
    (∀ p, (CreateIntegrationAWS client p).callsOnce "POST" "/v1/integration/aws" = true) ∧
    (GetIntegrationAWS client).callsOnce "GET" "/v1/integration/aws" = true ∧
    (∀ p, (DeleteIntegrationAWS client p).callsOnce "DELETE" "/v1/integration/aws" = true) ∧
    (∀ p, (AttachLambdaARNIntegrationAWS client p).callsOnce "POST"
      "/v1/integration/aws/logs" = true) ∧
    (GetIntegrationAWSLogCollection client).callsOnce "GET" "/v1/integration/aws/logs"
      = true ∧
    (∀ p, (DeleteAWSLogCollection client p).callsOnce "DELETE" "/v1/integration/aws/logs"
      = true) ∧
    (∀ p, (EnableLogCollectionAWSServices client p).callsOnce "POST"
      "/v1/integration/aws/logs/services" = true) ∧
    (ListIntegrationGCP client).callsOnce "GET" "/v1/integration/gcp" = true ∧
    (∀ p, (CreateIntegrationGCP client p).callsOnce "POST" "/v1/integration/gcp" = true) ∧
    (∀ p, (DeleteIntegrationGCP client p).callsOnce "DELETE" "/v1/integration/gcp" = true) ∧
    (∀ p, (UpdateIntegrationGCP client p).callsOnce "POST" "/v1/integration/gcp/host_filters"
      = true) := by
  refine ⟨?_, ?_, ?_, ?_, ?_, ?_, ?_, ?_, ?_, ?_, ?_, ?_, ?_, ?_, ?_, ?_, ?_, ?_, ?_, ?_⟩
  case refine_3 => rw [GetIntegrationPD_run]; rfl
  case refine_8 => rw [GetIntegrationSlack_run]; rfl
  case refine_10 => intro p; rw [CreateIntegrationAWS_run]; rfl
  case refine_11 => rw [GetIntegrationAWS_run]; rfl
  case refine_14 => rw [GetIntegrationAWSLogCollection_run]; rfl
  case refine_17 => rw [ListIntegrationGCP_run]; rfl
  all_goals first | rfl | (intro p; rfl)

/-! ### Propagation of the executor outcome -/

/-- C4. For every binding and every executor outcome the binding's result is determined by
that outcome alone. A binding that returns only an error returns exactly what the executor
returned. A result-returning binding returns a nil result and exactly the executor's error
when there is one, and otherwise no error and the value the executor decoded, of which
`GetIntegrationAWS` returns the `Accounts` list. The bindings that dereference their argument
are taken where they reach the executor. -/
theorem bindings_propagate_outcome {ε : Type} (client : Executor ε) :
    (∀ p, (CreateIntegrationPD client p).returnsErrorOf client) ∧
    (∀ p, (UpdateIntegrationPD client p).returnsErrorOf client) ∧
    (DeleteIntegrationPD client).returnsErrorOf client ∧
    (∀ p, (CreateIntegrationPDService client p).returnsErrorOf client) ∧
    (∀ n k, (UpdateIntegrationPDService client (some ⟨some n, k⟩)).returnsErrorOf client) ∧
    (∀ s, (DeleteIntegrationPDService client s).returnsErrorOf client) ∧
    (∀ p, (CreateIntegrationSlack client p).returnsErrorOf client) ∧
    (∀ p, (UpdateIntegrationSlack client p).returnsErrorOf client) ∧
    (DeleteIntegrationSlack client).returnsErrorOf client ∧
    (∀ a r ft ht rules,
      (UpdateIntegrationAWS client (some ⟨some a, some r, ft, ht, rules⟩)).returnsErrorOf
        client) ∧
    (∀ p, (DeleteIntegrationAWS client p).returnsErrorOf client) ∧
    (∀ p, (AttachLambdaARNIntegrationAWS client p).returnsErrorOf client) ∧
    (∀ p, (EnableLogCollectionAWSServices client p).returnsErrorOf client) ∧
    (∀ p, (DeleteAWSLogCollection client p).returnsErrorOf client) ∧
    (∀ p, (CreateIntegrationGCP client p).returnsErrorOf client) ∧
    (∀ p, (UpdateIntegrationGCP client p).returnsErrorOf client) ∧
    (∀ p, (DeleteIntegrationGCP client p).returnsErrorOf client) ∧
    (GetIntegrationPD client).propagates
      (client ⟨"GET", "/v1/integration/pagerduty", .nil, .integrationPD⟩) some ∧
    (∀ s, (GetIntegrationPDService client s).propagates
      (client ⟨"GET", "/v1/integration/pagerduty/configuration/services/" ++ s, .nil,
        .ServicePDRequest⟩) some) ∧
    (GetIntegrationSlack client).propagates
      (client ⟨"GET", "/v1/integration/slack", .nil, .IntegrationSlackRequest⟩) some ∧
    (∀ p, (CreateIntegrationAWS client p).propagates
      (client ⟨"POST", "/v1/integration/aws", .awsAccount p,
        .IntegrationAWSAccountCreateResponse⟩) some) ∧
    (GetIntegrationAWS client).propagates
      (client ⟨"GET", "/v1/integration/aws", .nil, .IntegrationAWSAccountGetResponse⟩)
      (fun response => some response.Accounts) ∧
    (GetIntegrationAWSLogCollection client).propagates
      (client ⟨"GET", "/v1/integration/aws/logs", .nil, .IntegrationAWSLogCollections⟩)
      some ∧
    (ListIntegrationGCP client).propagates
      (client ⟨"GET", "/v1/integration/gcp", .nil, .IntegrationGCPs⟩) id := by
  refine ⟨?_, ?_, ?_, ?_, ?_, ?_, ?_, ?_, ?_, ?_, ?_, ?_, ?_, ?_, ?_, ?_, ?_, ?_, ?_, ?_, ?_,
    ?_, ?_, ?_⟩
  case refine_18 => rw [GetIntegrationPD_run]; exact propagates_of_match _ _ _
  case refine_19 => intro s; rw [GetIntegrationPDService_run]; exact propagates_of_match _ _ _
  case refine_20 => rw [GetIntegrationSlack_run]; exact propagates_of_match _ _ _
  case refine_21 => intro p; rw [CreateIntegrationAWS_run]; exact propagates_of_match _ _ _
  case refine_22 =>
    rw [GetIntegrationAWS_run]
    exact propagates_of_match _ _
      (fun response : IntegrationAWSAccountGetResponse => some response.Accounts)
  case refine_23 => rw [GetIntegrationAWSLogCollection_run]; exact propagates_of_match _ _ _
  case refine_24 => rw [ListIntegrationGCP_run]; exact propagates_of_match _ _ id
  all_goals intros
  all_goals exact ⟨_, rfl, rfl⟩

/-! ### Failures reported by the executor -/

theorem not_discardsFailure_of_match {α β ε : Type} (client : Executor ε) (c : Call)
    (outcome : α × Option ε) (value : α → Option β) (h : (client c).2 = outcome.2) :
    ¬ Go.discardsFailure client
      (.ret [c] (match outcome.2 with
        | some e => (none, some e)
        | none => (value outcome.1, none))) := by
  rintro ⟨c', e, out, hc, he, hr⟩
  simp only [Go.calls, List.cons.injEq, and_true] at hc
  subst hc
  rw [h] at he
  rw [he] at hr
  simp [Go.result] at hr

/-- C8, refuted: no get-style binding discards a failure reported by the executor. Whatever
the executor, none of the six runs returns a non-nil output and no error after the executor
returned an error for the call made. -/
theorem no_get_binding_discards_failure :
    ¬ ∃ (ε : Type) (client : Executor ε),
      (GetIntegrationPD client).discardsFailure client ∨
      (∃ s, (GetIntegrationPDService client s).discardsFailure client) ∨
      (GetIntegrationSlack client).discardsFailure client ∨
      (GetIntegrationAWS client).discardsFailure client ∨
      (GetIntegrationAWSLogCollection client).discardsFailure client ∨
      (ListIntegrationGCP client).discardsFailure client := by
  rintro ⟨ε, client, h | ⟨s, h⟩ | h | h | h | h⟩
  · rw [GetIntegrationPD_run] at h
    exact not_discardsFailure_of_match client _ _ some rfl h
  · rw [GetIntegrationPDService_run] at h
    exact not_discardsFailure_of_match client _ _ some rfl h
  · rw [GetIntegrationSlack_run] at h
    exact not_discardsFailure_of_match client _ _ some rfl h
  · rw [GetIntegrationAWS_run] at h
    exact not_discardsFailure_of_match client _ _
      (fun response : IntegrationAWSAccountGetResponse => some response.Accounts) rfl h
  · rw [GetIntegrationAWSLogCollection_run] at h
    exact not_discardsFailure_of_match client _ _ some rfl h
  · rw [ListIntegrationGCP_run] at h
    exact not_discardsFailure_of_match client _ _ id rfl h

/-- C8, amended: whenever the executor reports a failure `e` for the call a get-style binding
makes, the binding returns a nil output and exactly `e`, whatever the executor left behind
`out`. This holds for all six get-style bindings. -/
theorem get_bindings_return_failure {ε : Type} (client : Executor ε) (e : ε) :
    ((client ⟨"GET", "/v1/integration/pagerduty", .nil, .integrationPD⟩).2 = some e →
      (GetIntegrationPD client).result = some (none, some e)) ∧
    (∀ s, (client ⟨"GET", "/v1/integration/pagerduty/configuration/services/" ++ s, .nil,
        .ServicePDRequest⟩).2 = some e →
      (GetIntegrationPDService client s).result = some (none, some e)) ∧
    ((client ⟨"GET", "/v1/integration/slack", .nil, .IntegrationSlackRequest⟩).2 = some e →
      (GetIntegrationSlack client).result = some (none, some e)) ∧
    ((client ⟨"GET", "/v1/integration/aws", .nil, .IntegrationAWSAccountGetResponse⟩).2
        = some e →
      (GetIntegrationAWS client).result = some (none, some e)) ∧
    ((client ⟨"GET", "/v1/integration/aws/logs", .nil, .IntegrationAWSLogCollections⟩).2
        = some e →
      (GetIntegrationAWSLogCollection client).result = some (none, some e)) ∧
    ((client ⟨"GET", "/v1/integration/gcp", .nil, .IntegrationGCPs⟩).2 = some e →
      (ListIntegrationGCP client).result = some (none, some e)) := by
  refine ⟨?_, ?_, ?_, ?_, ?_, ?_⟩
  · intro h; rw [GetIntegrationPD_run, h]; rfl
  · intro s h; rw [GetIntegrationPDService_run, h]; rfl
  · intro h; rw [GetIntegrationSlack_run, h]; rfl
  · intro h; rw [GetIntegrationAWS_run, h]; rfl
  · intro h; rw [GetIntegrationAWSLogCollection_run, h]; rfl
  · intro h; rw [ListIntegrationGCP_run, h]; rfl

/-- An executor that leaves partly filled output and reports a decoding failure: every
get-style binding returns nil and the failure. -/
theorem get_bindings_return_failure_partly_filled :
    (failingDecodeExecutor ⟨"GET", "/v1/integration/slack", .nil,
        .IntegrationSlackRequest⟩).1.ServiceHooks = some [⟨some "main", none⟩] ∧
    (GetIntegrationPD failingDecodeExecutor).result =
      some (none, some "json: cannot unmarshal response") ∧
    (GetIntegrationPDService failingDecodeExecutor "svc1").result =
      some (none, some "json: cannot unmarshal response") ∧
    (GetIntegrationSlack failingDecodeExecutor).result =
      some (none, some "json: cannot unmarshal response") ∧
    (GetIntegrationAWS failingDecodeExecutor).result =
      some (none, some "json: cannot unmarshal response") ∧
    (GetIntegrationAWSLogCollection failingDecodeExecutor).result =
      some (none, some "json: cannot unmarshal response") ∧
    (ListIntegrationGCP failingDecodeExecutor).result =
      some (none, some "json: cannot unmarshal response") :=
  have h := get_bindings_return_failure failingDecodeExecutor "json: cannot unmarshal response"
  ⟨rfl, h.1 rfl, h.2.1 "svc1" rfl, h.2.2.1 rfl, h.2.2.2.1 rfl, h.2.2.2.2.1 rfl,
    h.2.2.2.2.2 rfl⟩

/-! ### Nil dereferences -/

/-- C9. `UpdateIntegrationPDService` reaches its executor call if and only if its argument is
non-nil and its ServiceName is set (ServiceKey may be unset), and `UpdateIntegrationAWS` if
and only if its argument is non-nil and both AccountID and RoleName are set. In every other
case the run is a nil-dereference panic with no executor call made and nothing returned. -/
theorem update_bindings_reach_executor_iff {ε : Type} (client : Executor ε)
    (serviceObject : Option ServicePDRequest) (awsAccount : Option IntegrationAWSAccount) :
    ((∃ c, (UpdateIntegrationPDService client serviceObject).calls = [c] ∧
          (UpdateIntegrationPDService client serviceObject).panicked = false) ↔
        ∃ o n, serviceObject = some o ∧ o.ServiceName = some n) ∧
    ((¬ ∃ o n, serviceObject = some o ∧ o.ServiceName = some n) →
        UpdateIntegrationPDService client serviceObject = .panic []) ∧
    ((∃ c, (UpdateIntegrationAWS client awsAccount).calls = [c] ∧
          (UpdateIntegrationAWS client awsAccount).panicked = false) ↔
        ∃ o a r, awsAccount = some o ∧ o.AccountID = some a ∧ o.RoleName = some r) ∧
    ((¬ ∃ o a r, awsAccount = some o ∧ o.AccountID = some a ∧ o.RoleName = some r) →
        UpdateIntegrationAWS client awsAccount = .panic []) := by
  refine ⟨?_, ?_, ?_, ?_⟩
  · rcases serviceObject with _ | ⟨_ | n, key⟩ <;>
      simp [UpdateIntegrationPDService, deref, doJsonRequest, bind, Go.bind, pure, Go.calls,
        Go.panicked]
  · rcases serviceObject with _ | ⟨_ | n, key⟩ <;>
      simp [UpdateIntegrationPDService, deref, doJsonRequest, bind, Go.bind, pure]
  · rcases awsAccount with _ | ⟨_ | a, _ | r, ft, ht, rules⟩ <;>
      simp [UpdateIntegrationAWS, deref, doJsonRequest, bind, Go.bind, pure, Go.calls,
        Go.panicked]
  · rcases awsAccount with _ | ⟨_ | a, _ | r, ft, ht, rules⟩ <;>
      simp [UpdateIntegrationAWS, deref, doJsonRequest, bind, Go.bind, pure]

/-- Instances of C9: a service object without a name and an account without a role name make
the bindings panic before any call, while a service object with a name and no key reaches the
executor. -/
theorem update_bindings_nil_dereference :
    UpdateIntegrationPDService idleExecutor (some ⟨none, some "key1"⟩) = .panic [] ∧
    UpdateIntegrationPDService idleExecutor none = .panic [] ∧
    (UpdateIntegrationPDService idleExecutor (some ⟨some "svc1", none⟩)).callsOnce "PUT"
      "/v1/integration/pagerduty/configuration/services/svc1" = true ∧
    UpdateIntegrationAWS idleExecutor (some ⟨some "123", none, none, none, none⟩)
      = .panic [] ∧
    UpdateIntegrationAWS idleExecutor (some ⟨none, some "r", none, none, none⟩) = .panic [] ∧
    UpdateIntegrationAWS idleExecutor none = .panic [] := by
  have h1 := (update_bindings_reach_executor_iff idleExecutor (some ⟨none, some "key1"⟩)
    (some ⟨some "123", none, none, none, none⟩))
  have h2 := (update_bindings_reach_executor_iff idleExecutor none
    (some ⟨none, some "r", none, none, none⟩))
  refine ⟨h1.2.1 (by simp), h2.2.1 (by simp), by decide, h1.2.2.2 (by simp), h2.2.2.2 (by simp),
    ?_⟩
  exact (update_bindings_reach_executor_iff idleExecutor none none).2.2.2 (by simp)

/-! ### Service names in the path -/

theorem stripBase_append (base seg : List Char) : stripBase base (base ++ seg) = some seg := by
  induction base with
  | nil => cases seg <;> rfl
  | cons b bs ih => simp [stripBase, ih]

theorem isSingleSegmentUnder_append (base s : String) :
    isSingleSegmentUnder base (base ++ s) =
      s.data.all fun c => c != '/' && c != '?' && c != '#' := by
  simp only [isSingleSegmentUnder, String.data_append, stripBase_append]

theorem upperhex_not_delimiter (n : Nat) (h : n < 16) :
    upperhex n ≠ '/' ∧ upperhex n ≠ '?' ∧ upperhex n ≠ '#' := by
  interval_cases n <;> decide

theorem escapeChar_not_delimiter (c d : Char) (h : d ∈ escapeChar c) :
    d ≠ '/' ∧ d ≠ '?' ∧ d ≠ '#' := by
  unfold escapeChar at h
  split at h
  · simp only [List.mem_singleton] at h
    subst h
    decide
  · split at h
    · simp only [List.mem_flatMap, escapeByte, List.mem_cons, List.mem_singleton,
        List.not_mem_nil, or_false] at h
      obtain ⟨b, -, h | h | h⟩ := h
      · subst h; decide
      · subst h
        exact upperhex_not_delimiter _ (by have := b.toNat_lt; omega)
      · subst h
        exact upperhex_not_delimiter _ (Nat.mod_lt _ (by norm_num))
    · rename_i hs
      simp only [List.mem_singleton] at h
      subst h
      refine ⟨?_, ?_, ?_⟩ <;> rintro rfl <;> exact hs (by decide)

theorem QueryEscape_not_delimiter (s : String) (d : Char) (h : d ∈ (QueryEscape s).data) :
    d ≠ '/' ∧ d ≠ '?' ∧ d ≠ '#' := by
  simp only [QueryEscape, List.mem_flatMap] at h
  obtain ⟨c, -, hd⟩ := h
  exact escapeChar_not_delimiter c d hd

/-- C10. For every string `s`, `GetIntegrationPDService` and `DeleteIntegrationPDService` call
the executor once, with a nil request body and with the path
`/v1/integration/pagerduty/configuration/services/` followed by `s` verbatim. That is the
path `UpdateIntegrationPDService` uses for the same name. When `s` contains `/`, `?` or `#`
the path is not a single segment under the services path, whereas `url.QueryEscape`, used for
the query values of `UpdateIntegrationAWS`, never lets one of the three through. -/
theorem service_name_verbatim_in_path {ε : Type} (client : Executor ε) (s : String) :
    (GetIntegrationPDService client s).panicked = false ∧
    (GetIntegrationPDService client s).calls =
      [⟨"GET", "/v1/integration/pagerduty/configuration/services/" ++ s, .nil,
        .ServicePDRequest⟩] ∧
    (DeleteIntegrationPDService client s).panicked = false ∧
    (DeleteIntegrationPDService client s).calls =
      [⟨"DELETE", "/v1/integration/pagerduty/configuration/services/" ++ s, .nil, .nil⟩] ∧
    (∀ k, (UpdateIntegrationPDService client (some ⟨some s, k⟩)).calls.map Call.api =
      (GetIntegrationPDService client s).calls.map Call.api) ∧
    ((∃ c ∈ s.data, c = '/' ∨ c = '?' ∨ c = '#') →
      isSingleSegmentUnder "/v1/integration/pagerduty/configuration/services/"
        ("/v1/integration/pagerduty/configuration/services/" ++ s) = false) ∧
    (∀ c ∈ (QueryEscape s).data, c ≠ '/' ∧ c ≠ '?' ∧ c ≠ '#') := by
  refine ⟨?_, ?_, rfl, rfl, ?_, ?_, QueryEscape_not_delimiter s⟩
  · rw [GetIntegrationPDService_run]; rfl
  · rw [GetIntegrationPDService_run]; rfl
  · intro k
    rw [GetIntegrationPDService_run]
    rfl
  · rintro ⟨c, hc, h⟩
    rw [isSingleSegmentUnder_append, List.all_eq_false]
    refine ⟨c, hc, ?_⟩
    rcases h with h | h | h <;> subst h <;> decide

/-- An instance of C10: the name `a/b?c` is inserted verbatim, so the path has further
delimiters after the services path, while query escaping turns the same name into
`a%2Fb%3Fc`. -/
theorem service_name_with_delimiters :
    (GetIntegrationPDService idleExecutor "a/b?c").calls.map Call.api =
      ["/v1/integration/pagerduty/configuration/services/a/b?c"] ∧
    (DeleteIntegrationPDService idleExecutor "a/b?c").calls.map Call.api =
      ["/v1/integration/pagerduty/configuration/services/a/b?c"] ∧
    isSingleSegmentUnder "/v1/integration/pagerduty/configuration/services/"
      "/v1/integration/pagerduty/configuration/services/a/b?c" = false ∧
    QueryEscape "a/b?c" = "a%2Fb%3Fc" := by
  have h := service_name_verbatim_in_path idleExecutor "a/b?c"
  refine ⟨by rw [h.2.1]; rfl, by rw [h.2.2.2.1]; rfl, h.2.2.2.2.2.1 ⟨'/', by decide⟩,
    by decide⟩

/-! ### Encoding of struct fields -/

theorem lookup_encodeFields_of_not_mem (k : String) (fields : List Field)
    (h : k ∉ fields.map Field.name) : JSON.lookup k (encodeFields fields) = none := by
  induction fields with
  | nil => rfl
  | cons g rest ih =>
    simp only [List.map_cons, List.mem_cons, not_or] at h
    unfold encodeFields
    split
    · exact ih h.2
    · simp only [JSON.lookup]
      rw [if_neg (fun hk => h.1 hk.symm)]
      exact ih h.2

theorem lookup_encodeFields (fields : List Field) (hnd : (fields.map Field.name).Nodup)
    (f : Field) (hf : f ∈ fields) :
    JSON.lookup f.name (encodeFields fields) =
      if f.skipped then none else some f.value.encode := by
  induction fields with
  | nil => cases hf
  | cons g rest ih =>
    simp only [List.map_cons, List.nodup_cons] at hnd
    rcases List.mem_cons.mp hf with rfl | hmem
    · unfold encodeFields
      split
      · exact lookup_encodeFields_of_not_mem _ _ hnd.1
      · simp [JSON.lookup]
    · have hne : g.name ≠ f.name := by
        intro hk
        exact hnd.1 (hk ▸ List.mem_map_of_mem Field.name hmem)
      unfold encodeFields
      split
      · exact ih hnd.2 hmem
      · simp only [JSON.lookup]
        rw [if_neg hne]
        exact ih hnd.2 hmem

theorem RequestRecord.marshal_eq (r : RequestRecord) : r.marshal = encodeStruct r.fields := by
  cases r <;> rfl

theorem RequestRecord.names_nodup (r : RequestRecord) : (r.fields.map Field.name).Nodup := by
  cases r <;>
    simp [RequestRecord.fields, ServicePDRequest.fields, IntegrationPDRequest.fields,
      IntegrationSlackRequest.fields, ServiceHookSlackRequest.fields,
      ChannelSlackRequest.fields, IntegrationAWSAccount.fields,
      IntegrationAWSAccountDeleteRequest.fields, IntegrationAWSLambdaARNRequest.fields,
      IntegrationAWSServicesLogCollection.fields, IntegrationGCPCreateRequest.fields,
      IntegrationGCPUpdateRequest.fields, IntegrationGCPDeleteRequest.fields, Field.plain,
      Field.omitting]

theorem RequestRecord.get?_marshal (r : RequestRecord) (f : Field) (hf : f ∈ r.fields) :
    r.marshal.get? f.name = if f.skipped then none else some f.value.encode := by
  rw [r.marshal_eq]
  exact lookup_encodeFields r.fields r.names_nodup f hf

theorem GoValue.isEmptyValue_of_isNil (v : GoValue) (h : v.isNil = true) :
    v.isEmptyValue = true := by
  cases v with
  | string s => simp [GoValue.isNil] at h
  | ptrString p => exact h
  | ptrBool p => exact h
  | ptrBoolString p => exact h
  | slice items => cases items <;> simp_all [GoValue.isNil, GoValue.isEmptyValue]
  | mapStringBool m => cases m <;> simp_all [GoValue.isNil, GoValue.isEmptyValue]

theorem GoValue.encode_of_isNil (v : GoValue) (h : v.isNil = true) : v.encode = .null := by
  cases v with
  | string s => simp [GoValue.isNil] at h
  | ptrString p => cases p <;> simp_all [GoValue.isNil, GoValue.encode]
  | ptrBool p => cases p <;> simp_all [GoValue.isNil, GoValue.encode]
  | ptrBoolString p => cases p <;> simp_all [GoValue.isNil, GoValue.encode]
  | slice items => cases items <;> simp_all [GoValue.isNil, GoValue.encode]
  | mapStringBool m => cases m <;> simp_all [GoValue.isNil, GoValue.encode]

theorem unset_or_null (r : RequestRecord) (f : Field) (hf : f ∈ r.fields)
    (hnil : f.value.isNil = true) :
    r.marshal.get? f.name = none ∨ r.marshal.get? f.name = some .null := by
  rw [r.get?_marshal f hf, f.value.encode_of_isNil hnil]
  cases f.skipped <;> simp

/-- C5, refuted: an unset field is not always absent. `ServicePDRequest` with both fields
unset is written `{"service_name":null,"service_key":null}`, so it is not true that every
unset field of every request record has no key in the serialized object. -/
theorem unset_field_without_omitempty_has_key :
    ServicePDRequest.marshal ⟨none, none⟩ =
      .obj [("service_name", .null), ("service_key", .null)] ∧
    ¬ ∀ (r : RequestRecord) (f : Field), f ∈ r.fields → f.value.isNil = true →
      r.marshal.hasKey f.name = false := by
  refine ⟨rfl, fun h => ?_⟩
  have h' := h (.ServicePDRequest ⟨none, none⟩) (.plain "service_name" (.ptrString none))
    (by simp [RequestRecord.fields, ServicePDRequest.fields]) rfl
  exact absurd h' (by decide)

/-- C5, amended: for every request record type and every value of it, each field left unset
(nil pointer, nil slice, nil map) whose tag carries `omitempty` has no key in the serialized
JSON object, and each unset field whose tag does not carry it is written with the value
`null`. -/
theorem unset_field_omitted_iff_omitempty (r : RequestRecord) (f : Field)
    (hf : f ∈ r.fields) (hnil : f.value.isNil = true) :
    (f.omitempty = true → r.marshal.hasKey f.name = false) ∧
    (f.omitempty = false → r.marshal.get? f.name = some .null) := by
  have hget := r.get?_marshal f hf
  have hempty := f.value.isEmptyValue_of_isNil hnil
  constructor
  · intro ho
    simp [JSON.hasKey, hget, Field.skipped, ho, hempty]
  · intro ho
    simp [hget, Field.skipped, ho, f.value.encode_of_isNil hnil]

/-- Instances of the amended C5: the unset `host_filters` of an `IntegrationGCPUpdateRequest`
is left out and its unset `client_email` is written `null`. -/
theorem unset_field_gcp_update :
    IntegrationGCPUpdateRequest.marshal ⟨some "p", none, none⟩ =
      .obj [("project_id", .str "p"), ("client_email", .null)] ∧
    (RequestRecord.IntegrationGCPUpdateRequest ⟨some "p", none, none⟩).marshal.hasKey
      "host_filters" = false ∧
    (RequestRecord.IntegrationGCPUpdateRequest ⟨some "p", none, none⟩).marshal.get?
      "client_email" = some .null :=
  ⟨rfl,
    (unset_field_omitted_iff_omitempty (.IntegrationGCPUpdateRequest ⟨some "p", none, none⟩)
      (.omitting "host_filters" (.ptrString none))
      (by simp [RequestRecord.fields, IntegrationGCPUpdateRequest.fields]) rfl).1 rfl,
    (unset_field_omitted_iff_omitempty (.IntegrationGCPUpdateRequest ⟨some "p", none, none⟩)
      (.plain "client_email" (.ptrString none))
      (by simp [RequestRecord.fields, IntegrationGCPUpdateRequest.fields]) rfl).2 rfl⟩

theorem GoValue.encode_of_isZeroSet (v : GoValue) (h : v.isZeroSet = true) :
    v.encode = v.zeroJSON := by
  cases v with
  | string s => simp [GoValue.isZeroSet] at h
  | ptrString p => cases p <;> simp_all [GoValue.isZeroSet, GoValue.encode, GoValue.zeroJSON]
  | ptrBool p => cases p <;> simp_all [GoValue.isZeroSet, GoValue.encode, GoValue.zeroJSON]
  | ptrBoolString p =>
    cases p <;> simp_all [GoValue.isZeroSet, GoValue.encode, GoValue.zeroJSON]
  | slice items =>
    cases items <;> simp_all [GoValue.isZeroSet, GoValue.encode, GoValue.zeroJSON]
  | mapStringBool m =>
    cases m <;>
      simp_all [GoValue.isZeroSet, GoValue.encode, GoValue.zeroJSON, sortByKey]

theorem GoValue.not_isEmptyValue_of_pointer (v : GoValue) (hz : v.isZeroSet = true)
    (hp : v.isPointer = true) : v.isEmptyValue = false := by
  cases v with
  | string s => simp [GoValue.isZeroSet] at hz
  | ptrString p => cases p <;> simp_all [GoValue.isZeroSet, GoValue.isEmptyValue]
  | ptrBool p => cases p <;> simp_all [GoValue.isZeroSet, GoValue.isEmptyValue]
  | ptrBoolString p => cases p <;> simp_all [GoValue.isZeroSet, GoValue.isEmptyValue]
  | slice items => simp [GoValue.isPointer] at hp
  | mapStringBool m => simp [GoValue.isPointer] at hp

theorem GoValue.zeroJSON_ne_null (v : GoValue) : v.zeroJSON ≠ .null := by
  cases v <;> simp [GoValue.zeroJSON]

theorem zero_field_present (r : RequestRecord) (f : Field) (hf : f ∈ r.fields)
    (hz : f.value.isZeroSet = true)
    (hp : f.value.isPointer = true ∨ f.omitempty = false) :
    r.marshal.get? f.name = some f.value.zeroJSON := by
  rw [r.get?_marshal f hf, f.value.encode_of_isZeroSet hz]
  have hs : f.skipped = false := by
    rcases hp with hp | hp
    · simp [Field.skipped, f.value.not_isEmptyValue_of_pointer hz hp]
    · simp [Field.skipped, hp]
  simp [hs]

/-- C6, refuted: an `IntegrationPDRequest` whose list field `services` is an empty non-nil
list and one where every field is unset are both written `{}`, and the same holds for
`schedules` and for `service_hooks` and `channels` of `IntegrationSlackRequest`. The empty
list is not present in the serialized JSON, so a field set to its zero value is not always
present. -/
theorem empty_list_with_omitempty_is_dropped :
    IntegrationPDRequest.marshal ⟨some [], none, none, none, none⟩ = .obj [] ∧
    IntegrationPDRequest.marshal ⟨none, none, some [], none, none⟩ = .obj [] ∧
    IntegrationPDRequest.marshal ⟨none, none, none, none, none⟩ = .obj [] ∧
    IntegrationSlackRequest.marshal ⟨some [], none, none⟩ = .obj [] ∧
    IntegrationSlackRequest.marshal ⟨none, some [], none⟩ = .obj [] ∧
    IntegrationSlackRequest.marshal ⟨none, none, none⟩ = .obj [] ∧
    ¬ ∀ (r : RequestRecord) (f : Field), f ∈ r.fields → f.value.isZeroSet = true →
      r.marshal.get? f.name = some f.value.zeroJSON := by
  refine ⟨rfl, rfl, rfl, rfl, rfl, rfl, fun h => ?_⟩
  have h' := h (.IntegrationPDRequest ⟨some [], none, none, none, none⟩)
    (.omitting "services" (.slice (some [])))
    (by simp [RequestRecord.fields, IntegrationPDRequest.fields, encodeItems]) rfl
  exact absurd h' (by simp [RequestRecord.marshal, IntegrationPDRequest.marshal,
    IntegrationPDRequest.fields, encodeStruct, encodeFields, encodeItems, Field.omitting,
    Field.skipped, GoValue.isEmptyValue, JSON.get?, JSON.lookup])

/-- C6, amended. For every request record type and every field of it: a pointer field
explicitly set to `""` or `false`, and an empty non-nil list or map field whose tag does not
carry `omitempty`, is present in the serialized JSON with its zero value (the JSON string
`"false"` for a boolean tagged `string`), so a record where the field is set to zero and a
record where the field of that name is unset serialize to different JSON. The list fields
tagged `omitempty`, which are `services` and `schedules` of `IntegrationPDRequest` and
`service_hooks` and `channels` of `IntegrationSlackRequest`, have no key when they are empty,
and the record serializes exactly as when they are unset. -/
theorem zero_field_present_unless_omitempty_list :
    (∀ (r : RequestRecord) (f : Field), f ∈ r.fields → f.value.isZeroSet = true →
      (f.value.isPointer = true ∨ f.omitempty = false) →
      r.marshal.get? f.name = some f.value.zeroJSON) ∧
    (∀ (r r' : RequestRecord) (f f' : Field), f ∈ r.fields → f' ∈ r'.fields →
      f'.name = f.name → f.value.isZeroSet = true →
      (f.value.isPointer = true ∨ f.omitempty = false) → f'.value.isNil = true →
      r.marshal ≠ r'.marshal) ∧
    (∀ (r : RequestRecord) (f : Field), f ∈ r.fields → f.value.isZeroSet = true →
      f.value.isPointer = false → f.omitempty = true → r.marshal.hasKey f.name = false) ∧
    (∀ r : IntegrationPDRequest,
      IntegrationPDRequest.marshal { r with Services := some [] } =
        IntegrationPDRequest.marshal { r with Services := none } ∧
      IntegrationPDRequest.marshal { r with Schedules := some [] } =
        IntegrationPDRequest.marshal { r with Schedules := none }) ∧
    (∀ r : IntegrationSlackRequest,
      IntegrationSlackRequest.marshal { r with ServiceHooks := some [] } =
        IntegrationSlackRequest.marshal { r with ServiceHooks := none } ∧
      IntegrationSlackRequest.marshal { r with Channels := some [] } =
        IntegrationSlackRequest.marshal { r with Channels := none }) := by
  refine ⟨zero_field_present, ?_, ?_, ?_, ?_⟩
  · intro r r' f f' hf hf' hname hz hp hnil heq
    have h1 := zero_field_present r f hf hz hp
    have h2 := unset_or_null r' f' hf' hnil
    rw [heq, ← hname] at h1
    rcases h2 with h2 | h2
    · rw [h2] at h1; cases h1
    · rw [h2] at h1
      exact f.value.zeroJSON_ne_null (Option.some.inj h1).symm
  · intro r f hf hz hp ho
    have hempty : f.value.isEmptyValue = true := by
      cases hv : f.value with
      | slice items =>
        cases items <;> simp_all [GoValue.isZeroSet, GoValue.isEmptyValue]
      | mapStringBool m =>
        cases m <;> simp_all [GoValue.isZeroSet, GoValue.isEmptyValue]
      | _ => simp_all [GoValue.isZeroSet, GoValue.isPointer]
    simp [JSON.hasKey, r.get?_marshal f hf, Field.skipped, ho, hempty]
  · intro r
    constructor <;> rfl
  · intro r
    constructor <;> rfl

/-- Instances of the amended C6: `host_filters` set to `""` is written `""` and the record
differs from the one where it is unset; `run_check` set to `false` on a Slack request is
written as the JSON string `"false"`; an empty `filter_tags` list, whose tag has no
`omitempty`, is written `[]`. -/
theorem zero_field_instances :
    (RequestRecord.IntegrationGCPUpdateRequest ⟨none, none, some ""⟩).marshal.get?
      "host_filters" = some (.str "") ∧
    (RequestRecord.IntegrationGCPUpdateRequest ⟨none, none, some ""⟩).marshal ≠
      (RequestRecord.IntegrationGCPUpdateRequest ⟨none, none, none⟩).marshal ∧
    (RequestRecord.IntegrationSlackRequest ⟨none, none, some false⟩).marshal.get?
      "run_check" = some (.str "false") ∧
    (RequestRecord.IntegrationAWSAccount ⟨none, none, some [], none, none⟩).marshal.get?
      "filter_tags" = some (.arr []) :=
  have h := zero_field_present_unless_omitempty_list
  ⟨h.1 (.IntegrationGCPUpdateRequest ⟨none, none, some ""⟩)
      (.omitting "host_filters" (.ptrString (some "")))
      (by simp [RequestRecord.fields, IntegrationGCPUpdateRequest.fields]) rfl (Or.inl rfl),
    h.2.1 (.IntegrationGCPUpdateRequest ⟨none, none, some ""⟩)
      (.IntegrationGCPUpdateRequest ⟨none, none, none⟩)
      (.omitting "host_filters" (.ptrString (some "")))
      (.omitting "host_filters" (.ptrString none))
      (by simp [RequestRecord.fields, IntegrationGCPUpdateRequest.fields])
      (by simp [RequestRecord.fields, IntegrationGCPUpdateRequest.fields]) rfl rfl
      (Or.inl rfl) rfl,
    h.1 (.IntegrationSlackRequest ⟨none, none, some false⟩)
      (.omitting "run_check" (.ptrBoolString (some false)))
      (by simp [RequestRecord.fields, IntegrationSlackRequest.fields]) rfl (Or.inl rfl),
    h.1 (.IntegrationAWSAccount ⟨none, none, some [], none, none⟩)
      (.plain "filter_tags" (.slice (some [])))
      (by simp [RequestRecord.fields, IntegrationAWSAccount.fields, encodeItems]) rfl
      (Or.inr rfl)⟩

/-! ### Decoding and encoding again -/

theorem preservedMembers_iff (ms ms' : List (String × JSON)) :
    JSON.preservedMembers ms ms' = true ↔
      ∀ m ∈ ms, ∃ j, JSON.lookup m.1 ms' = some j ∧ JSON.preserved m.2 j = true := by
  induction ms with
  | nil => simp [JSON.preservedMembers]
  | cons m rest ih =>
    obtain ⟨k, v⟩ := m
    simp only [JSON.preservedMembers, Bool.and_eq_true, ih, List.mem_cons, forall_eq_or_imp]
    constructor
    · rintro ⟨h1, h2⟩
      refine ⟨?_, h2⟩
      cases hl : JSON.lookup k ms' with
      | none => simp [hl] at h1
      | some j => exact ⟨j, rfl, by simpa [hl] using h1⟩
    · rintro ⟨⟨j, hj, hp⟩, h2⟩
      exact ⟨by simp [hj, hp], h2⟩

theorem distinctKeys_cons (k : String) (v : JSON) (rest : List (String × JSON)) :
    distinctKeys ((k, v) :: rest) = true ↔
      (∀ m ∈ rest, m.1 ≠ k) ∧ distinctKeys rest = true := by
  simp [distinctKeys]

theorem distinctKeys_nodup (members : List (String × JSON))
    (h : distinctKeys members = true) : (members.map Prod.fst).Nodup := by
  induction members with
  | nil => exact List.nodup_nil
  | cons m rest ih =>
    obtain ⟨k, v⟩ := m
    rw [distinctKeys_cons] at h
    simp only [List.map_cons, List.nodup_cons, List.mem_map, not_exists, not_and]
    exact ⟨fun m hm hk => h.1 m hm hk, ih h.2⟩

theorem lookup_of_mem_nodup (l : List (String × JSON)) (hnd : (l.map Prod.fst).Nodup)
    (k : String) (j : JSON) (hm : (k, j) ∈ l) : JSON.lookup k l = some j := by
  induction l with
  | nil => cases hm
  | cons e rest ih =>
    obtain ⟨k', j'⟩ := e
    simp only [List.map_cons, List.nodup_cons] at hnd
    rcases List.mem_cons.mp hm with h | h
    · cases h
      simp [JSON.lookup]
    · have hne : k' ≠ k := by
        intro hk
        subst hk
        exact hnd.1 (List.mem_map_of_mem Prod.fst h)
      simp only [JSON.lookup, if_neg hne]
      exact ih hnd.2 h

theorem insertByKey_perm {α : Type} (e : String × α) (l : List (String × α)) :
    (insertByKey e l).Perm (e :: l) := by
  induction l with
  | nil => exact List.Perm.refl _
  | cons x rest ih =>
    unfold insertByKey
    split
    · exact ((List.Perm.cons x ih).trans (List.Perm.swap e x rest))
    · exact List.Perm.refl _

theorem sortByKey_perm {α : Type} (l : List (String × α)) : (sortByKey l).Perm l := by
  induction l with
  | nil => exact List.Perm.refl _
  | cons e rest ih =>
    exact (insertByKey_perm e (sortByKey rest)).trans (List.Perm.cons e ih)

theorem validList_iff (items : List JSON) :
    JSON.validList items = true ↔ ∀ j ∈ items, j.validStrings = true := by
  induction items with
  | nil => simp [JSON.validList]
  | cons j rest ih => simp [JSON.validList, ih]

theorem validMembers_iff (members : List (String × JSON)) :
    JSON.validMembers members = true ↔ ∀ m ∈ members, m.2.validStrings = true := by
  induction members with
  | nil => simp [JSON.validMembers]
  | cons m rest ih =>
    obtain ⟨k, v⟩ := m
    simp [JSON.validMembers, ih]

theorem map_char_unquote (ps : List Piece) (h : ps.all Piece.isChar = true) :
    (ps.map Piece.unquote).map Piece.char = ps := by
  induction ps with
  | nil => rfl
  | cons p rest ih =>
    simp only [List.all_cons, Bool.and_eq_true] at h
    cases p with
    | char c => simp [Piece.unquote, ih h.2]
    | surrogate code => simp [Piece.isChar] at h

theorem map_char_injective (a b : List Char) (h : a.map Piece.char = b.map Piece.char) :
    a = b := by
  induction a generalizing b with
  | nil => cases b <;> simp_all
  | cons x xs ih =>
    cases b with
    | nil => simp at h
    | cons y ys =>
      simp only [List.map_cons, List.cons.injEq, Piece.char.injEq] at h
      rw [h.1, ih ys h.2]

theorem decodeString_preserved (cur : String) (v : JSON) (h : Schema.string v = true)
    (hs : v.validStrings = true) :
    ∃ s, decodeString cur v = some s ∧ JSON.preserved v (JSON.str s) = true := by
  cases v with
  | str s => exact ⟨s, rfl, by simp [JSON.preserved]⟩
  | rawStr ps =>
    exact ⟨⟨ps.map Piece.unquote⟩, rfl, by
      simp only [JSON.validStrings] at hs
      simp [JSON.preserved, map_char_unquote ps hs]⟩
  | _ => simp [Schema.string, JSON.pieces?] at h

theorem decodePtrString_preserved (v : JSON) (h : Schema.ptrString v = true)
    (hs : v.validStrings = true) :
    ∃ p, decodePtrString v = some p ∧
      JSON.preserved v (GoValue.ptrString p).encode = true := by
  cases v with
  | null => exact ⟨none, rfl, rfl⟩
  | str s => exact ⟨some s, rfl, by simp [GoValue.encode, JSON.preserved]⟩
  | rawStr ps =>
    exact ⟨some ⟨ps.map Piece.unquote⟩, rfl, by
      simp only [JSON.validStrings] at hs
      simp [GoValue.encode, JSON.preserved, map_char_unquote ps hs]⟩
  | _ => simp [Schema.ptrString, Schema.string, JSON.pieces?] at h

theorem decodeQuotedBool_preserved (v : JSON) (h : Schema.quotedBool v = true)
    (_hs : v.validStrings = true) :
    ∃ b, decodePtrBoolString v = some (some b) ∧
      JSON.preserved v (GoValue.ptrBoolString (some b)).encode = true := by
  cases v with
  | str s =>
    simp only [Schema.quotedBool, JSON.pieces?, Bool.or_eq_true, beq_iff_eq,
      Option.some.injEq] at h
    rcases h with h | h
    · have hd : s.data = "true".data := map_char_injective _ _ h
      have hs' : s = "true" := String.ext hd
      subst hs'
      exact ⟨true, rfl, rfl⟩
    · have hd : s.data = "false".data := map_char_injective _ _ h
      have hs' : s = "false" := String.ext hd
      subst hs'
      exact ⟨false, rfl, rfl⟩
  | rawStr ps =>
    simp only [Schema.quotedBool, JSON.pieces?, Bool.or_eq_true, beq_iff_eq,
      Option.some.injEq] at h
    rcases h with rfl | rfl
    · exact ⟨true, rfl, rfl⟩
    · exact ⟨false, rfl, rfl⟩
  | _ => simp [Schema.quotedBool, JSON.pieces?] at h

theorem decodeList_preserved {α : Type} (dec : JSON → Option α) (enc : α → JSON)
    (ok : JSON → Bool)
    (helem : ∀ j, ok j = true → j.validStrings = true →
      ∃ a, dec j = some a ∧ JSON.preserved j (enc a) = true)
    (items : List JSON) (hall : items.all ok = true)
    (hvalid : JSON.validList items = true) :
    ∃ as, decodeList dec items = some as ∧ as.length = items.length ∧
      JSON.preservedList items (as.map enc) = true := by
  induction items with
  | nil => exact ⟨[], rfl, rfl, rfl⟩
  | cons j rest ih =>
    simp only [List.all_cons, Bool.and_eq_true] at hall
    simp only [JSON.validList, Bool.and_eq_true] at hvalid
    obtain ⟨a, ha, hp⟩ := helem j hall.1 hvalid.1
    obtain ⟨as, has, hlen, hps⟩ := ih hall.2 hvalid.2
    exact ⟨a :: as, by simp [decodeList, ha, has], by simp [hlen],
      by simp [JSON.preservedList, hp, hps]⟩

theorem decodeSlice_preserved {α : Type} (dec : JSON → Option α) (enc : α → JSON)
    (ok : JSON → Bool)
    (helem : ∀ j, ok j = true → j.validStrings = true →
      ∃ a, dec j = some a ∧ JSON.preserved j (enc a) = true)
    (v : JSON) (h : Schema.slice ok v = true) (hs : v.validStrings = true) :
    ∃ p, decodeSlice dec v = some p ∧
      JSON.preserved v (GoValue.slice (encodeItems enc p)).encode = true := by
  cases v with
  | null => exact ⟨none, rfl, rfl⟩
  | arr items =>
    simp only [JSON.validStrings] at hs
    obtain ⟨as, has, -, hps⟩ := decodeList_preserved dec enc ok helem items h hs
    exact ⟨some as, by simp [decodeSlice, has],
      by simpa [encodeItems, GoValue.encode, JSON.preserved] using hps⟩
  | _ => simp [Schema.slice] at h

theorem decodeNonEmptySlice_preserved {α : Type} (dec : JSON → Option α) (enc : α → JSON)
    (ok : JSON → Bool)
    (helem : ∀ j, ok j = true → j.validStrings = true →
      ∃ a, dec j = some a ∧ JSON.preserved j (enc a) = true)
    (v : JSON) (h : Schema.nonEmptySlice ok v = true) (hs : v.validStrings = true) :
    ∃ a as, decodeSlice dec v = some (some (a :: as)) ∧
      JSON.preserved v (GoValue.slice (encodeItems enc (some (a :: as)))).encode = true := by
  cases v with
  | arr items =>
    cases items with
    | nil => simp [Schema.nonEmptySlice] at h
    | cons j rest =>
      have hall : (j :: rest).all ok = true := by
        simpa [Schema.nonEmptySlice] using h
      simp only [JSON.validStrings] at hs
      obtain ⟨as, has, hlen, hps⟩ :=
        decodeList_preserved dec enc ok helem (j :: rest) hall hs
      cases as with
      | nil => simp at hlen
      | cons a as =>
        exact ⟨a, as, by simp [decodeSlice, has],
          by simpa [encodeItems, GoValue.encode, JSON.preserved] using hps⟩
  | _ => simp [Schema.nonEmptySlice] at h

theorem decodePtr_preserved {α : Type} (dec : JSON → Option α) (enc : α → JSON)
    (ok : JSON → Bool)
    (helem : ∀ j, ok j = true → j.validStrings = true →
      ∃ a, dec j = some a ∧ JSON.preserved j (enc a) = true)
    (v : JSON) (h : Schema.ptr ok v = true) (hs : v.validStrings = true) :
    ∃ p, decodePtr dec v = some p ∧ JSON.preserved v (encodePtr enc p) = true := by
  cases v with
  | null => exact ⟨none, rfl, rfl⟩
  | bool b =>
    obtain ⟨a, ha, hp⟩ := helem _ h hs
    exact ⟨some a, by simp [decodePtr, ha], hp⟩
  | num n =>
    obtain ⟨a, ha, hp⟩ := helem _ h hs
    exact ⟨some a, by simp [decodePtr, ha], hp⟩
  | str s =>
    obtain ⟨a, ha, hp⟩ := helem _ h hs
    exact ⟨some a, by simp [decodePtr, ha], hp⟩
  | rawStr ps =>
    obtain ⟨a, ha, hp⟩ := helem _ h hs
    exact ⟨some a, by simp [decodePtr, ha], hp⟩
  | arr items =>
    obtain ⟨a, ha, hp⟩ := helem _ h hs
    exact ⟨some a, by simp [decodePtr, ha], hp⟩
  | obj members =>
    obtain ⟨a, ha, hp⟩ := helem _ h hs
    exact ⟨some a, by simp [decodePtr, ha], hp⟩

theorem mapInsert_of_not_mem (k : String) (b : Bool) (m : List (String × Bool))
    (h : ∀ x ∈ m, x.1 ≠ k) : mapInsert k b m = m ++ [(k, b)] := by
  induction m with
  | nil => rfl
  | cons e rest ih =>
    have he : e.1 ≠ k := h e (List.mem_cons_self _ _)
    simp only [mapInsert, if_neg he, List.cons_append]
    rw [ih (fun x hx => h x (List.mem_cons_of_mem _ hx))]

theorem decodeMapMembers_spec (members : List (String × JSON))
    (hd : distinctKeys members = true) (hb : ∀ e ∈ members, Schema.bool e.2 = true)
    (m : List (String × Bool)) (hm : (m.map Prod.fst).Nodup)
    (hdisj : ∀ e ∈ members, ∀ x ∈ m, x.1 ≠ e.1) :
    ∃ m', decodeMapMembers members m = some m' ∧ (m'.map Prod.fst).Nodup ∧
      (∀ e ∈ members, ∃ b, e.2 = JSON.bool b ∧ (e.1, b) ∈ m') ∧
      ∀ x ∈ m, x ∈ m' := by
  induction members generalizing m with
  | nil => exact ⟨m, rfl, hm, by simp, fun x hx => hx⟩
  | cons e rest ih =>
    obtain ⟨k, v⟩ := e
    rw [distinctKeys_cons] at hd
    have hv := hb (k, v) (List.mem_cons_self _ _)
    cases v with
    | bool b =>
      have hk : ∀ x ∈ m, x.1 ≠ k := hdisj (k, JSON.bool b) (List.mem_cons_self _ _)
      have hins := mapInsert_of_not_mem k b m hk
      have hm1 : ((m ++ [(k, b)]).map Prod.fst).Nodup := by
        simp only [List.map_append, List.map_cons, List.map_nil]
        refine List.Nodup.append hm (List.nodup_singleton k) ?_
        intro a ha hak
        simp only [List.mem_singleton] at hak
        subst hak
        obtain ⟨x, hx, hxa⟩ := List.mem_map.mp ha
        exact hk x hx hxa
      have hdisj1 : ∀ e ∈ rest, ∀ x ∈ m ++ [(k, b)], x.1 ≠ e.1 := by
        intro e he x hx
        rcases List.mem_append.mp hx with hx | hx
        · exact hdisj e (List.mem_cons_of_mem _ he) x hx
        · simp only [List.mem_singleton] at hx
          subst hx
          exact fun h => hd.1 e he h.symm
      obtain ⟨m', hdec, hnd, hall, hkeep⟩ :=
        ih hd.2 (fun e he => hb e (List.mem_cons_of_mem _ he)) (m ++ [(k, b)]) hm1 hdisj1
      refine ⟨m', by simp [decodeMapMembers, decodeBool, hins, hdec], hnd, ?_, ?_⟩
      · intro e he
        rcases List.mem_cons.mp he with rfl | he
        · exact ⟨b, rfl, hkeep _ (by simp)⟩
        · exact hall e he
      · intro x hx
        exact hkeep x (List.mem_append_left _ hx)
    | _ => simp [Schema.bool] at hv

theorem decodeMapStringBool_preserved (v : JSON) (h : Schema.mapStringBool v = true)
    (_hs : v.validStrings = true) :
    ∃ p, decodeMapStringBool v = some p ∧
      JSON.preserved v (GoValue.mapStringBool p).encode = true := by
  cases v with
  | null => exact ⟨none, rfl, rfl⟩
  | obj members =>
    simp only [Schema.mapStringBool, Bool.and_eq_true, List.all_eq_true] at h
    obtain ⟨m', hdec, hnd, hall, -⟩ :=
      decodeMapMembers_spec members h.1 h.2 [] List.nodup_nil (by simp)
    refine ⟨some m', by simp [decodeMapStringBool, hdec], ?_⟩
    simp only [GoValue.encode, JSON.preserved, preservedMembers_iff]
    intro e he
    obtain ⟨b, hb, hmem⟩ := hall e he
    refine ⟨JSON.bool b, ?_, by simp [hb, JSON.preserved]⟩
    apply lookup_of_mem_nodup
    · rw [List.map_map]
      exact ((sortByKey_perm m').map Prod.fst).nodup_iff.mpr hnd
    · exact List.mem_map.mpr ⟨(e.1, b), (sortByKey_perm m').mem_iff.mpr hmem, rfl⟩
  | _ => simp [Schema.mapStringBool] at h

theorem decodeMembers_preserved {α : Type} (marshal : α → JSON)
    (set : String → JSON → α → Option α) (fields : List FieldSchema)
    (H : ∀ k s, schemaOf k fields = some s → StoresField marshal set k s)
    (members : List (String × JSON)) (hd : distinctKeys members = true)
    (hok : ∀ m ∈ members, ∃ s, schemaOf m.1 fields = some s ∧ s m.2 = true)
    (hvalid : ∀ m ∈ members, m.2.validStrings = true) (r : α) :
    ∃ r', decodeMembers set members r = some r' ∧
      (∀ m ∈ members, ∃ j, (marshal r').get? m.1 = some j ∧ JSON.preserved m.2 j = true) ∧
      (∀ n, (∀ m ∈ members, m.1 ≠ n) → (marshal r').get? n = (marshal r).get? n) := by
  induction members generalizing r with
  | nil => exact ⟨r, rfl, by simp, fun _ _ => rfl⟩
  | cons m rest ih =>
    obtain ⟨k, v⟩ := m
    rw [distinctKeys_cons] at hd
    obtain ⟨s, hs, hv⟩ := hok (k, v) (List.mem_cons_self _ _)
    obtain ⟨r1, hset, ⟨j, hj, hp⟩, hframe⟩ :=
      H k s hs v r hv (hvalid (k, v) (List.mem_cons_self _ _))
    obtain ⟨r', hdec, hall, hrest⟩ :=
      ih hd.2 (fun m hm => hok m (List.mem_cons_of_mem _ hm))
        (fun m hm => hvalid m (List.mem_cons_of_mem _ hm)) r1
    refine ⟨r', by simp [decodeMembers, hset, hdec], ?_, ?_⟩
    · intro m hm
      rcases List.mem_cons.mp hm with rfl | hm
      · exact ⟨j, by rw [hrest k hd.1, hj], hp⟩
      · exact hall m hm
    · intro n hn
      rw [hrest n (fun m hm => hn m (List.mem_cons_of_mem _ hm))]
      exact hframe n (fun h => hn (k, v) (List.mem_cons_self _ _) h.symm)

theorem decodeStruct_preserved {α : Type} (marshal : α → JSON)
    (set : String → JSON → α → Option α) (fields : List FieldSchema) (zero : α)
    (hobj : ∀ r, ∃ ms, marshal r = .obj ms)
    (H : ∀ k s, schemaOf k fields = some s → StoresField marshal set k s)
    (body : JSON) (hb : Schema.struct fields body = true)
    (hs : body.validStrings = true) :
    ∃ r, decodeStruct zero set body = some r ∧ JSON.preserved body (marshal r) = true := by
  cases body with
  | obj members =>
    simp only [Schema.struct, Bool.and_eq_true, List.all_eq_true] at hb
    have hok : ∀ m ∈ members, ∃ s, schemaOf m.1 fields = some s ∧ s m.2 = true := by
      intro m hm
      have := hb.2 m hm
      cases hs : schemaOf m.1 fields with
      | none => simp [hs] at this
      | some s => exact ⟨s, rfl, by simpa [hs] using this⟩
    simp only [JSON.validStrings] at hs
    obtain ⟨r', hdec, hall, -⟩ :=
      decodeMembers_preserved marshal set fields H members hb.1 hok
        ((validMembers_iff members).mp hs) zero
    refine ⟨r', hdec, ?_⟩
    obtain ⟨ms, hms⟩ := hobj r'
    rw [hms, JSON.preserved, preservedMembers_iff]
    intro m hm
    obtain ⟨j, hj, hp⟩ := hall m hm
    rw [hms] at hj
    exact ⟨j, hj, hp⟩
  | _ => simp [Schema.struct] at hb

theorem servicePD_unmarshal_preserved (body : JSON)
    (hb : servicePD.schema body = true) (hs : body.validStrings = true) :
    ∃ r, servicePD.unmarshal body = some r ∧
      JSON.preserved body r.marshal = true := by
  refine decodeStruct_preserved servicePD.marshal
    servicePD.setField _ _ (fun r => ⟨_, rfl⟩) ?_ body hb hs
  intro k s h v r hv hs
  obtain ⟨f1, f2⟩ := r
  simp only [schemaOf] at h
  split_ifs at h <;> cases h <;> subst_vars
  · obtain ⟨p, hp, hpres⟩ := decodePtrString_preserved v hv hs
    refine ⟨⟨p, f2⟩, ?_, ⟨_, ?_, hpres⟩, ?_⟩
    · simp +decide only [servicePD.setField, hp, if_true, if_false,
        Option.map_some']
    · rfl
    · intro n hn
      simp [servicePD.marshal, servicePD.fields,
        encodeStruct, encodeFields, Field.plain, Field.skipped, JSON.get?, JSON.lookup,
        Ne.symm hn]
  · obtain ⟨p, hp, hpres⟩ := decodePtrString_preserved v hv hs
    refine ⟨⟨f1, p⟩, ?_, ⟨_, ?_, hpres⟩, ?_⟩
    · simp +decide only [servicePD.setField, hp, if_true, if_false,
        Option.map_some']
    · rfl
    · intro n hn
      simp [servicePD.marshal, servicePD.fields,
        encodeStruct, encodeFields, Field.plain, Field.skipped, JSON.get?, JSON.lookup,
        Ne.symm hn]

theorem integrationPD_unmarshal_preserved (body : JSON)
    (hb : integrationPD.schema body = true) (hs : body.validStrings = true) :
    ∃ r, integrationPD.unmarshal body = some r ∧
      JSON.preserved body r.marshal = true := by
  refine decodeStruct_preserved integrationPD.marshal
    integrationPD.setField _ _ (fun r => ⟨_, rfl⟩) ?_ body hb hs
  intro k s h v r hv hs
  obtain ⟨f1, f2, f3, f4⟩ := r
  simp only [schemaOf] at h
  split_ifs at h <;> cases h <;> subst_vars
  · obtain ⟨p, hp, hpres⟩ := decodeSlice_preserved servicePD.unmarshal
      servicePD.marshal servicePD.schema
      servicePD_unmarshal_preserved v hv hs
    refine ⟨⟨p, f2, f3, f4⟩, ?_, ⟨_, ?_, hpres⟩, ?_⟩
    · simp +decide only [integrationPD.setField, hp, if_true, if_false,
        Option.map_some']
    · rfl
    · intro n hn
      simp [integrationPD.marshal, integrationPD.fields,
        encodeStruct, encodeFields, Field.plain, Field.skipped, JSON.get?, JSON.lookup,
        Ne.symm hn]
  · obtain ⟨p, hp, hpres⟩ := decodePtrString_preserved v hv hs
    refine ⟨⟨f1, p, f3, f4⟩, ?_, ⟨_, ?_, hpres⟩, ?_⟩
    · simp +decide only [integrationPD.setField, hp, if_true, if_false,
        Option.map_some']
    · rfl
    · intro n hn
      simp [integrationPD.marshal, integrationPD.fields,
        encodeStruct, encodeFields, Field.plain, Field.skipped, JSON.get?, JSON.lookup,
        Ne.symm hn]
  · obtain ⟨p, hp, hpres⟩ := decodeSlice_preserved (decodeString "") JSON.str
      Schema.string (decodeString_preserved "") v hv hs
    refine ⟨⟨f1, f2, p, f4⟩, ?_, ⟨_, ?_, hpres⟩, ?_⟩
    · simp +decide only [integrationPD.setField, hp, if_true, if_false,
        Option.map_some']
    · rfl
    · intro n hn
      simp [integrationPD.marshal, integrationPD.fields,
        encodeStruct, encodeFields, Field.plain, Field.skipped, JSON.get?, JSON.lookup,
        Ne.symm hn]
  · obtain ⟨p, hp, hpres⟩ := decodePtrString_preserved v hv hs
    refine ⟨⟨f1, f2, f3, p⟩, ?_, ⟨_, ?_, hpres⟩, ?_⟩
    · simp +decide only [integrationPD.setField, hp, if_true, if_false,
        Option.map_some']
    · rfl
    · intro n hn
      simp [integrationPD.marshal, integrationPD.fields,
        encodeStruct, encodeFields, Field.plain, Field.skipped, JSON.get?, JSON.lookup,
        Ne.symm hn]

theorem ServicePDRequest_unmarshal_preserved (body : JSON)
    (hb : ServicePDRequest.schema body = true) (hs : body.validStrings = true) :
    ∃ r, ServicePDRequest.unmarshal body = some r ∧
      JSON.preserved body r.marshal = true := by
  refine decodeStruct_preserved ServicePDRequest.marshal
    ServicePDRequest.setField _ _ (fun r => ⟨_, rfl⟩) ?_ body hb hs
  intro k s h v r hv hs
  obtain ⟨f1, f2⟩ := r
  simp only [schemaOf] at h
  split_ifs at h <;> cases h <;> subst_vars
  · obtain ⟨p, hp, hpres⟩ := decodePtrString_preserved v hv hs
    refine ⟨⟨p, f2⟩, ?_, ⟨_, ?_, hpres⟩, ?_⟩
    · simp +decide only [ServicePDRequest.setField, hp, if_true, if_false,
        Option.map_some']
    · rfl
    · intro n hn
      simp [ServicePDRequest.marshal, ServicePDRequest.fields,
        encodeStruct, encodeFields, Field.plain, Field.skipped, JSON.get?, JSON.lookup,
        Ne.symm hn]
  · obtain ⟨p, hp, hpres⟩ := decodePtrString_preserved v hv hs
    refine ⟨⟨f1, p⟩, ?_, ⟨_, ?_, hpres⟩, ?_⟩
    · simp +decide only [ServicePDRequest.setField, hp, if_true, if_false,
        Option.map_some']
    · rfl
    · intro n hn
      simp [ServicePDRequest.marshal, ServicePDRequest.fields,
        encodeStruct, encodeFields, Field.plain, Field.skipped, JSON.get?, JSON.lookup,
        Ne.symm hn]

theorem ServiceHookSlackRequest_unmarshal_preserved (body : JSON)
    (hb : ServiceHookSlackRequest.schema body = true) (hs : body.validStrings = true) :
    ∃ r, ServiceHookSlackRequest.unmarshal body = some r ∧
      JSON.preserved body r.marshal = true := by
  refine decodeStruct_preserved ServiceHookSlackRequest.marshal
    ServiceHookSlackRequest.setField _ _ (fun r => ⟨_, rfl⟩) ?_ body hb hs
  intro k s h v r hv hs
  obtain ⟨f1, f2⟩ := r
  simp only [schemaOf] at h
  split_ifs at h <;> cases h <;> subst_vars
  · obtain ⟨p, hp, hpres⟩ := decodePtrString_preserved v hv hs
    refine ⟨⟨p, f2⟩, ?_, ⟨_, ?_, hpres⟩, ?_⟩
    · simp +decide only [ServiceHookSlackRequest.setField, hp, if_true, if_false,
        Option.map_some']
    · rfl
    · intro n hn
      simp [ServiceHookSlackRequest.marshal, ServiceHookSlackRequest.fields,
        encodeStruct, encodeFields, Field.plain, Field.skipped, JSON.get?, JSON.lookup,
        Ne.symm hn]
  · obtain ⟨p, hp, hpres⟩ := decodePtrString_preserved v hv hs
    refine ⟨⟨f1, p⟩, ?_, ⟨_, ?_, hpres⟩, ?_⟩
    · simp +decide only [ServiceHookSlackRequest.setField, hp, if_true, if_false,
        Option.map_some']
    · rfl
    · intro n hn
      simp [ServiceHookSlackRequest.marshal, ServiceHookSlackRequest.fields,
        encodeStruct, encodeFields, Field.plain, Field.skipped, JSON.get?, JSON.lookup,
        Ne.symm hn]

theorem IntegrationAWSAccount_unmarshal_preserved (body : JSON)
    (hb : IntegrationAWSAccount.schema body = true) (hs : body.validStrings = true) :
    ∃ r, IntegrationAWSAccount.unmarshal body = some r ∧
      JSON.preserved body r.marshal = true := by
  refine decodeStruct_preserved IntegrationAWSAccount.marshal
    IntegrationAWSAccount.setField _ _ (fun r => ⟨_, rfl⟩) ?_ body hb hs
  intro k s h v r hv hs
  obtain ⟨f1, f2, f3, f4, f5⟩ := r
  simp only [schemaOf] at h
  split_ifs at h <;> cases h <;> subst_vars
  · obtain ⟨p, hp, hpres⟩ := decodePtrString_preserved v hv hs
    refine ⟨⟨p, f2, f3, f4, f5⟩, ?_, ⟨_, ?_, hpres⟩, ?_⟩
    · simp +decide only [IntegrationAWSAccount.setField, hp, if_true, if_false,
        Option.map_some']
    · rfl
    · intro n hn
      simp [IntegrationAWSAccount.marshal, IntegrationAWSAccount.fields,
        encodeStruct, encodeFields, Field.plain, Field.skipped, JSON.get?, JSON.lookup,
        Ne.symm hn]
  · obtain ⟨p, hp, hpres⟩ := decodePtrString_preserved v hv hs
    refine ⟨⟨f1, p, f3, f4, f5⟩, ?_, ⟨_, ?_, hpres⟩, ?_⟩
    · simp +decide only [IntegrationAWSAccount.setField, hp, if_true, if_false,
        Option.map_some']
    · rfl
    · intro n hn
      simp [IntegrationAWSAccount.marshal, IntegrationAWSAccount.fields,
        encodeStruct, encodeFields, Field.plain, Field.skipped, JSON.get?, JSON.lookup,
        Ne.symm hn]
  · obtain ⟨p, hp, hpres⟩ := decodeSlice_preserved (decodeString "") JSON.str
      Schema.string (decodeString_preserved "") v hv hs
    refine ⟨⟨f1, f2, p, f4, f5⟩, ?_, ⟨_, ?_, hpres⟩, ?_⟩
    · simp +decide only [IntegrationAWSAccount.setField, hp, if_true, if_false,
        Option.map_some']
    · rfl
    · intro n hn
      simp [IntegrationAWSAccount.marshal, IntegrationAWSAccount.fields,
        encodeStruct, encodeFields, Field.plain, Field.skipped, JSON.get?, JSON.lookup,
        Ne.symm hn]
  · obtain ⟨p, hp, hpres⟩ := decodeSlice_preserved (decodeString "") JSON.str
      Schema.string (decodeString_preserved "") v hv hs
    refine ⟨⟨f1, f2, f3, p, f5⟩, ?_, ⟨_, ?_, hpres⟩, ?_⟩
    · simp +decide only [IntegrationAWSAccount.setField, hp, if_true, if_false,
        Option.map_some']
    · rfl
    · intro n hn
      simp [IntegrationAWSAccount.marshal, IntegrationAWSAccount.fields,
        encodeStruct, encodeFields, Field.plain, Field.skipped, JSON.get?, JSON.lookup,
        Ne.symm hn]
  · obtain ⟨p, hp, hpres⟩ := decodeMapStringBool_preserved v hv hs
    refine ⟨⟨f1, f2, f3, f4, p⟩, ?_, ⟨_, ?_, hpres⟩, ?_⟩
    · simp +decide only [IntegrationAWSAccount.setField, hp, if_true, if_false,
        Option.map_some']
    · rfl
    · intro n hn
      simp [IntegrationAWSAccount.marshal, IntegrationAWSAccount.fields,
        encodeStruct, encodeFields, Field.plain, Field.skipped, JSON.get?, JSON.lookup,
        Ne.symm hn]

theorem IntegrationAWSAccountCreateResponse_unmarshal_preserved (body : JSON)
    (hb : IntegrationAWSAccountCreateResponse.schema body = true) (hs : body.validStrings = true) :
    ∃ r, IntegrationAWSAccountCreateResponse.unmarshal body = some r ∧
      JSON.preserved body r.marshal = true := by
  refine decodeStruct_preserved IntegrationAWSAccountCreateResponse.marshal
    IntegrationAWSAccountCreateResponse.setField _ _ (fun r => ⟨_, rfl⟩) ?_ body hb hs
  intro k s h v r hv hs
  obtain ⟨f1⟩ := r
  simp only [schemaOf] at h
  split_ifs at h
  cases h
  subst_vars
  · obtain ⟨p, hp, hpres⟩ := decodeString_preserved f1 v hv hs
    refine ⟨⟨p⟩, ?_, ⟨_, ?_, hpres⟩, ?_⟩
    · simp +decide only [IntegrationAWSAccountCreateResponse.setField, hp, if_true, if_false,
        Option.map_some']
    · rfl
    · intro n hn
      simp [IntegrationAWSAccountCreateResponse.marshal, IntegrationAWSAccountCreateResponse.fields,
        encodeStruct, encodeFields, Field.plain, Field.skipped, JSON.get?, JSON.lookup,
        Ne.symm hn]

theorem IntegrationAWSAccountGetResponse_unmarshal_preserved (body : JSON)
    (hb : IntegrationAWSAccountGetResponse.schema body = true) (hs : body.validStrings = true) :
    ∃ r, IntegrationAWSAccountGetResponse.unmarshal body = some r ∧
      JSON.preserved body r.marshal = true := by
  refine decodeStruct_preserved IntegrationAWSAccountGetResponse.marshal
    IntegrationAWSAccountGetResponse.setField _ _ (fun r => ⟨_, rfl⟩) ?_ body hb hs
  intro k s h v r hv hs
  obtain ⟨f1⟩ := r
  simp only [schemaOf] at h
  split_ifs at h
  cases h
  subst_vars
  · obtain ⟨p, hp, hpres⟩ := decodeSlice_preserved IntegrationAWSAccount.unmarshal
      IntegrationAWSAccount.marshal IntegrationAWSAccount.schema
      IntegrationAWSAccount_unmarshal_preserved v hv hs
    refine ⟨⟨p⟩, ?_, ⟨_, ?_, hpres⟩, ?_⟩
    · simp +decide only [IntegrationAWSAccountGetResponse.setField, hp, if_true, if_false,
        Option.map_some']
    · rfl
    · intro n hn
      simp [IntegrationAWSAccountGetResponse.marshal, IntegrationAWSAccountGetResponse.fields,
        encodeStruct, encodeFields, Field.plain, Field.skipped, JSON.get?, JSON.lookup,
        Ne.symm hn]

theorem IntegrationAWSLambdaARN_unmarshal_preserved (body : JSON)
    (hb : IntegrationAWSLambdaARN.schema body = true) (hs : body.validStrings = true) :
    ∃ r, IntegrationAWSLambdaARN.unmarshal body = some r ∧
      JSON.preserved body r.marshal = true := by
  refine decodeStruct_preserved IntegrationAWSLambdaARN.marshal
    IntegrationAWSLambdaARN.setField _ _ (fun r => ⟨_, rfl⟩) ?_ body hb hs
  intro k s h v r hv hs
  obtain ⟨f1⟩ := r
  simp only [schemaOf] at h
  split_ifs at h
  cases h
  subst_vars
  · obtain ⟨p, hp, hpres⟩ := decodePtrString_preserved v hv hs
    refine ⟨⟨p⟩, ?_, ⟨_, ?_, hpres⟩, ?_⟩
    · simp +decide only [IntegrationAWSLambdaARN.setField, hp, if_true, if_false,
        Option.map_some']
    · rfl
    · intro n hn
      simp [IntegrationAWSLambdaARN.marshal, IntegrationAWSLambdaARN.fields,
        encodeStruct, encodeFields, Field.plain, Field.skipped, JSON.get?, JSON.lookup,
        Ne.symm hn]

theorem IntegrationAWSLogCollection_unmarshal_preserved (body : JSON)
    (hb : IntegrationAWSLogCollection.schema body = true) (hs : body.validStrings = true) :
    ∃ r, IntegrationAWSLogCollection.unmarshal body = some r ∧
      JSON.preserved body r.marshal = true := by
  refine decodeStruct_preserved IntegrationAWSLogCollection.marshal
    IntegrationAWSLogCollection.setField _ _ (fun r => ⟨_, rfl⟩) ?_ body hb hs
  intro k s h v r hv hs
  obtain ⟨f1, f2, f3⟩ := r
  simp only [schemaOf] at h
  split_ifs at h <;> cases h <;> subst_vars
  · obtain ⟨p, hp, hpres⟩ := decodePtrString_preserved v hv hs
    refine ⟨⟨p, f2, f3⟩, ?_, ⟨_, ?_, hpres⟩, ?_⟩
    · simp +decide only [IntegrationAWSLogCollection.setField, hp, if_true, if_false,
        Option.map_some']
    · rfl
    · intro n hn
      simp [IntegrationAWSLogCollection.marshal, IntegrationAWSLogCollection.fields,
        encodeStruct, encodeFields, Field.plain, Field.skipped, JSON.get?, JSON.lookup,
        Ne.symm hn]
  · obtain ⟨p, hp, hpres⟩ := decodeSlice_preserved IntegrationAWSLambdaARN.unmarshal
      IntegrationAWSLambdaARN.marshal IntegrationAWSLambdaARN.schema
      IntegrationAWSLambdaARN_unmarshal_preserved v hv hs
    refine ⟨⟨f1, p, f3⟩, ?_, ⟨_, ?_, hpres⟩, ?_⟩
    · simp +decide only [IntegrationAWSLogCollection.setField, hp, if_true, if_false,
        Option.map_some']
    · rfl
    · intro n hn
      simp [IntegrationAWSLogCollection.marshal, IntegrationAWSLogCollection.fields,
        encodeStruct, encodeFields, Field.plain, Field.skipped, JSON.get?, JSON.lookup,
        Ne.symm hn]
  · obtain ⟨p, hp, hpres⟩ := decodeSlice_preserved (decodeString "") JSON.str
      Schema.string (decodeString_preserved "") v hv hs
    refine ⟨⟨f1, f2, p⟩, ?_, ⟨_, ?_, hpres⟩, ?_⟩
    · simp +decide only [IntegrationAWSLogCollection.setField, hp, if_true, if_false,
        Option.map_some']
    · rfl
    · intro n hn
      simp [IntegrationAWSLogCollection.marshal, IntegrationAWSLogCollection.fields,
        encodeStruct, encodeFields, Field.plain, Field.skipped, JSON.get?, JSON.lookup,
        Ne.symm hn]

theorem IntegrationGCP_unmarshal_preserved (body : JSON)
    (hb : IntegrationGCP.schema body = true) (hs : body.validStrings = true) :
    ∃ r, IntegrationGCP.unmarshal body = some r ∧
      JSON.preserved body r.marshal = true := by
  refine decodeStruct_preserved IntegrationGCP.marshal
    IntegrationGCP.setField _ _ (fun r => ⟨_, rfl⟩) ?_ body hb hs
  intro k s h v r hv hs
  obtain ⟨f1, f2, f3⟩ := r
  simp only [schemaOf] at h
  split_ifs at h <;> cases h <;> subst_vars
  · obtain ⟨p, hp, hpres⟩ := decodePtrString_preserved v hv hs
    refine ⟨⟨p, f2, f3⟩, ?_, ⟨_, ?_, hpres⟩, ?_⟩
    · simp +decide only [IntegrationGCP.setField, hp, if_true, if_false,
        Option.map_some']
    · rfl
    · intro n hn
      simp [IntegrationGCP.marshal, IntegrationGCP.fields,
        encodeStruct, encodeFields, Field.plain, Field.skipped, JSON.get?, JSON.lookup,
        Ne.symm hn]
  · obtain ⟨p, hp, hpres⟩ := decodePtrString_preserved v hv hs
    refine ⟨⟨f1, p, f3⟩, ?_, ⟨_, ?_, hpres⟩, ?_⟩
    · simp +decide only [IntegrationGCP.setField, hp, if_true, if_false,
        Option.map_some']
    · rfl
    · intro n hn
      simp [IntegrationGCP.marshal, IntegrationGCP.fields,
        encodeStruct, encodeFields, Field.plain, Field.skipped, JSON.get?, JSON.lookup,
        Ne.symm hn]
  · obtain ⟨p, hp, hpres⟩ := decodePtrString_preserved v hv hs
    refine ⟨⟨f1, f2, p⟩, ?_, ⟨_, ?_, hpres⟩, ?_⟩
    · simp +decide only [IntegrationGCP.setField, hp, if_true, if_false,
        Option.map_some']
    · rfl
    · intro n hn
      simp [IntegrationGCP.marshal, IntegrationGCP.fields,
        encodeStruct, encodeFields, Field.plain, Field.skipped, JSON.get?, JSON.lookup,
        Ne.symm hn]

theorem ChannelSlackRequest_unmarshal_preserved (body : JSON)
    (hb : ChannelSlackRequest.schemaSet body = true) (hs : body.validStrings = true) :
    ∃ r, ChannelSlackRequest.unmarshal body = some r ∧
      JSON.preserved body r.marshal = true := by
  refine decodeStruct_preserved ChannelSlackRequest.marshal ChannelSlackRequest.setField _ _
    (fun r => ⟨_, rfl⟩) ?_ body hb hs
  intro k s h v r hv hs
  obtain ⟨f1, f2, f3⟩ := r
  simp only [schemaOf] at h
  split_ifs at h <;> cases h <;> subst_vars
  · obtain ⟨p, hp, hpres⟩ := decodePtrString_preserved v hv hs
    refine ⟨⟨p, f2, f3⟩, ?_, ⟨_, ?_, hpres⟩, ?_⟩
    · simp +decide only [ChannelSlackRequest.setField, hp, if_true, if_false, Option.map_some']
    · rfl
    · intro n hn
      simp [ChannelSlackRequest.marshal, ChannelSlackRequest.fields, encodeStruct,
        encodeFields, Field.plain, Field.omitting, Field.skipped, JSON.get?, JSON.lookup,
        Ne.symm hn]
  · obtain ⟨b, hp, hpres⟩ := decodeQuotedBool_preserved v hv hs
    refine ⟨⟨f1, some b, f3⟩, ?_, ⟨_, ?_, hpres⟩, ?_⟩
    · simp +decide only [ChannelSlackRequest.setField, hp, if_true, if_false, Option.map_some']
    · rfl
    · intro n hn
      cases f2 <;>
        simp [ChannelSlackRequest.marshal, ChannelSlackRequest.fields, encodeStruct,
          encodeFields, Field.plain, Field.omitting, Field.skipped, GoValue.isEmptyValue,
          JSON.get?, JSON.lookup, Ne.symm hn]
  · obtain ⟨p, hp, hpres⟩ := decodePtrString_preserved v hv hs
    refine ⟨⟨f1, f2, p⟩, ?_, ⟨_, ?_, hpres⟩, ?_⟩
    · simp +decide only [ChannelSlackRequest.setField, hp, if_true, if_false, Option.map_some']
    · cases f2 <;> rfl
    · intro n hn
      cases f2 <;>
        simp [ChannelSlackRequest.marshal, ChannelSlackRequest.fields, encodeStruct,
          encodeFields, Field.plain, Field.omitting, Field.skipped, GoValue.isEmptyValue,
          JSON.get?, JSON.lookup, Ne.symm hn]

theorem IntegrationSlackRequest_unmarshal_preserved (body : JSON)
    (hb : IntegrationSlackRequest.schemaSet body = true)
    (hs : body.validStrings = true) :
    ∃ r, IntegrationSlackRequest.unmarshal body = some r ∧
      JSON.preserved body r.marshal = true := by
  refine decodeStruct_preserved IntegrationSlackRequest.marshal
    IntegrationSlackRequest.setField _ _ (fun r => ⟨_, rfl⟩) ?_ body hb hs
  intro k s h v r hv hs
  obtain ⟨f1, f2, f3⟩ := r
  simp only [schemaOf] at h
  split_ifs at h <;> cases h <;> subst_vars
  · obtain ⟨a, as, hp, hpres⟩ := decodeNonEmptySlice_preserved
      ServiceHookSlackRequest.unmarshal ServiceHookSlackRequest.marshal
      ServiceHookSlackRequest.schema ServiceHookSlackRequest_unmarshal_preserved v hv hs
    refine ⟨⟨some (a :: as), f2, f3⟩, ?_, ⟨_, ?_, hpres⟩, ?_⟩
    · simp +decide only [IntegrationSlackRequest.setField, hp, if_true, if_false,
        Option.map_some']
    · rfl
    · intro n hn
      rcases f1 with _ | _ | _ <;>
        simp [IntegrationSlackRequest.marshal, IntegrationSlackRequest.fields, encodeStruct,
          encodeFields, encodeItems, Field.omitting, Field.skipped, GoValue.isEmptyValue,
          JSON.get?, JSON.lookup, Ne.symm hn]
  · obtain ⟨a, as, hp, hpres⟩ := decodeNonEmptySlice_preserved
      ChannelSlackRequest.unmarshal ChannelSlackRequest.marshal
      ChannelSlackRequest.schemaSet ChannelSlackRequest_unmarshal_preserved v hv hs
    refine ⟨⟨f1, some (a :: as), f3⟩, ?_, ⟨_, ?_, hpres⟩, ?_⟩
    · simp +decide only [IntegrationSlackRequest.setField, hp, if_true, if_false,
        Option.map_some']
    · rcases f1 with _ | _ | _ <;> rfl
    · intro n hn
      rcases f1 with _ | _ | _ <;> rcases f2 with _ | _ | _ <;>
        simp [IntegrationSlackRequest.marshal, IntegrationSlackRequest.fields, encodeStruct,
          encodeFields, encodeItems, Field.omitting, Field.skipped, GoValue.isEmptyValue,
          JSON.get?, JSON.lookup, Ne.symm hn]
  · obtain ⟨b, hp, hpres⟩ := decodeQuotedBool_preserved v hv hs
    refine ⟨⟨f1, f2, some b⟩, ?_, ⟨_, ?_, hpres⟩, ?_⟩
    · simp +decide only [IntegrationSlackRequest.setField, hp, if_true, if_false,
        Option.map_some']
    · rcases f1 with _ | _ | _ <;> rcases f2 with _ | _ | _ <;> rfl
    · intro n hn
      rcases f1 with _ | _ | _ <;> rcases f2 with _ | _ | _ <;> cases f3 <;>
        simp [IntegrationSlackRequest.marshal, IntegrationSlackRequest.fields, encodeStruct,
          encodeFields, encodeItems, Field.omitting, Field.skipped, GoValue.isEmptyValue,
          JSON.get?, JSON.lookup, Ne.symm hn]

/-- C7, refuted: the body `{"service_hooks": []}` matches the schema of
`IntegrationSlackRequest` and has no string at all, decodes to a request with an empty
non-nil list and is encoded again as `{}`: the field `service_hooks` of the body is not
present again. The same happens to `{"run_check": null}`. So decoding and encoding again does
not keep every present field of every schema-matching body. -/
theorem slack_empty_list_not_round_tripped :
    Out.schema .IntegrationSlackRequest (.obj [("service_hooks", .arr [])]) = true ∧
    (JSON.obj [("service_hooks", .arr [])]).validStrings = true ∧
    Out.unmarshal .IntegrationSlackRequest (.obj [("service_hooks", .arr [])]) =
      some (⟨some [], none, none⟩ : IntegrationSlackRequest) ∧
    Out.roundTrip .IntegrationSlackRequest (.obj [("service_hooks", .arr [])]) =
      some (.obj []) ∧
    JSON.preserved (.obj [("service_hooks", .arr [])]) (.obj []) = false ∧
    Out.schema .IntegrationSlackRequest (.obj [("run_check", .null)]) = true ∧
    Out.roundTrip .IntegrationSlackRequest (.obj [("run_check", .null)]) = some (.obj []) ∧
    JSON.preserved (.obj [("run_check", .null)]) (.obj []) = false ∧
    ¬ ∀ (o : Out) (body : JSON), o.schema body = true →
      ∃ out, o.roundTrip body = some out ∧ body.preserved out = true := by
  refine ⟨rfl, rfl, rfl, rfl, rfl, rfl, rfl, rfl, fun h => ?_⟩
  obtain ⟨out, hout, hp⟩ := h .IntegrationSlackRequest (.obj [("service_hooks", .arr [])]) rfl
  have hout' : out = .obj [] := (Option.some.inj hout).symm
  subst hout'
  exact absurd hp (by decide)

/-- A string with an unpaired surrogate escape is not kept either. The body
`{"subdomain": "\ud800"}` matches the schema of `integrationPD`; the decoder stores the
replacement character U+FFFD for the escape, and the body encoded again holds a different
string under `subdomain`. This is why the round trip is stated for bodies with valid strings
only. -/
theorem unpaired_surrogate_not_round_tripped :
    Out.schema .integrationPD (.obj [("subdomain", .rawStr [.surrogate 0xD800])]) = true ∧
    (JSON.obj [("subdomain", .rawStr [.surrogate 0xD800])]).validStrings = false ∧
    Out.roundTrip .integrationPD (.obj [("subdomain", .rawStr [.surrogate 0xD800])]) =
      some (.obj [("services", .null), ("subdomain", .str ⟨[Char.ofNat 0xFFFD]⟩),
        ("schedules", .null), ("api_token", .null)]) ∧
    JSON.preserved (.obj [("subdomain", .rawStr [.surrogate 0xD800])])
      (.obj [("services", .null), ("subdomain", .str ⟨[Char.ofNat 0xFFFD]⟩),
        ("schedules", .null), ("api_token", .null)]) = false :=
  ⟨rfl, rfl, rfl, rfl⟩

/-- C7, amended: for every response type decoded by a binding and every JSON body that
matches that type's schema and whose strings, values and member names alike, hold no
unpaired surrogate escape, where for `IntegrationSlackRequest` no `omitempty` field that is
present (`service_hooks`, `channels`, `run_check`, and `transfer_all_user_comments` of a
channel) is `null` or an empty list, decoding the body succeeds and encoding the decoded
value again yields JSON in which every field present in the body is present again with the
same value. -/
theorem response_round_trip (o : Out) (body : JSON) (h : o.schemaSet body = true)
    (hs : body.validStrings = true) :
    ∃ out, o.roundTrip body = some out ∧ body.preserved out = true := by
  cases o with
  | nil => simp [Out.schemaSet, Out.schema] at h
  | integrationPD =>
    obtain ⟨r, hr, hp⟩ := integrationPD_unmarshal_preserved body h hs
    exact ⟨_, by simp [Out.roundTrip, Out.unmarshal, hr]; rfl, hp⟩
  | ServicePDRequest =>
    obtain ⟨r, hr, hp⟩ := ServicePDRequest_unmarshal_preserved body h hs
    exact ⟨_, by simp [Out.roundTrip, Out.unmarshal, hr]; rfl, hp⟩
  | IntegrationSlackRequest =>
    obtain ⟨r, hr, hp⟩ := IntegrationSlackRequest_unmarshal_preserved body h hs
    exact ⟨_, by simp [Out.roundTrip, Out.unmarshal, hr]; rfl, hp⟩
  | IntegrationAWSAccountCreateResponse =>
    obtain ⟨r, hr, hp⟩ := IntegrationAWSAccountCreateResponse_unmarshal_preserved body h hs
    exact ⟨_, by simp [Out.roundTrip, Out.unmarshal, hr]; rfl, hp⟩
  | IntegrationAWSAccountGetResponse =>
    obtain ⟨r, hr, hp⟩ := IntegrationAWSAccountGetResponse_unmarshal_preserved body h hs
    exact ⟨_, by simp [Out.roundTrip, Out.unmarshal, hr]; rfl, hp⟩
  | IntegrationAWSLogCollections =>
    obtain ⟨p, hr, hp⟩ := decodeSlice_preserved IntegrationAWSLogCollection.unmarshal
      IntegrationAWSLogCollection.marshal IntegrationAWSLogCollection.schema
      IntegrationAWSLogCollection_unmarshal_preserved body h hs
    exact ⟨_, by simp [Out.roundTrip, Out.unmarshal, hr]; rfl, hp⟩
  | IntegrationGCPs =>
    obtain ⟨p, hr, hp⟩ := decodeSlice_preserved (decodePtr IntegrationGCP.unmarshal)
      (encodePtr IntegrationGCP.marshal) (Schema.ptr IntegrationGCP.schema)
      (decodePtr_preserved IntegrationGCP.unmarshal IntegrationGCP.marshal
        IntegrationGCP.schema IntegrationGCP_unmarshal_preserved) body h hs
    exact ⟨_, by simp [Out.roundTrip, Out.unmarshal, hr]; rfl, hp⟩

/-- An instance of the amended C7: a PagerDuty body with one service and a subdomain is
decoded and encoded again with both fields kept, the fields the body did not have being
written `null`. -/
theorem response_round_trip_pagerduty :
    Out.roundTrip .integrationPD
        (.obj [("services", .arr [.obj [("service_name", .str "a")]]),
          ("subdomain", .str "x")]) =
      some (.obj [("services", .arr [.obj [("service_name", .str "a"),
          ("service_key", .null)]]),
        ("subdomain", .str "x"), ("schedules", .null), ("api_token", .null)]) ∧
    ∃ out,
      Out.roundTrip .integrationPD
        (.obj [("services", .arr [.obj [("service_name", .str "a")]]),
          ("subdomain", .str "x")]) = some out ∧
      JSON.preserved
        (.obj [("services", .arr [.obj [("service_name", .str "a")]]),
          ("subdomain", .str "x")]) out = true :=
  ⟨rfl, response_round_trip .integrationPD
    (.obj [("services", .arr [.obj [("service_name", .str "a")]]), ("subdomain", .str "x")])
    rfl rfl⟩

end Datadog
